import Mathlib

/-!
# Verification of the DIY-DASHBOARD access-rule reconciler

Shallow embedding of the access-rule logic of
`src/src/components/ViewDashboardModal.jsx`:

* the reconstruction of Profile/Role/User access rules from a dashboard's
  flat user-assignment list (the `useEffect` at lines 56-140),
* the flatten-on-save union of rule `userIds` (`handleSave`, lines 418-428,
  and `getExistingUserIds`, lines 189-195),
* the add-rule operation (`handleAddRules`, lines 267-331),
* search and type filtering of the rule table (`getFilteredRules`,
  lines 227-264, `handleFilterChange`, lines 208-224),
* the member popup name synthesis (`getRuleUsers`, lines 351-357) and the
  add-rule profile list (`availableProfiles`, line 176).

User ids, role ids and list indices are numeric in the source's data model
(SQL integer keys), so they are embedded as `Nat`; the JavaScript template
strings that build rule identifiers are embedded as `String` concatenation
with `natStr` as the decimal rendering of a number.  JavaScript `Set`s,
which the source only queries through `has`, are embedded as lists with
`contains` membership; object/Set insertion order is embedded as
first-occurrence order.
-/

/-- A directory user as delivered to the modal in `allUsers`:
`{id, userName, profile}`. -/
structure DirUser where
  id : Nat
  userName : String
  profile : String
deriving DecidableEq

/-- An entry of `dashboard.users`: `{userId, userName, profile}`
(see `Dashboard.getById`, which returns exactly these fields). -/
structure DashUser where
  userId : Nat
  userName : String
  profile : String
deriving DecidableEq

/-- A member entry of a role's `members` array: `{userId, ...}`. -/
structure RoleMember where
  userId : Nat
deriving DecidableEq

/-- A role as delivered in `allRoles`:
`{id, roleName, roleType, members}`. -/
structure Role where
  id : Nat
  roleName : String
  roleType : String
  members : List RoleMember
deriving DecidableEq

/-- An access rule `{id, ruleType, condition, details, userIds}` as built
by the modal.  `ruleType` is one of the strings "User", "Profile", "Role". -/
structure AccessRule where
  id : String
  ruleType : String
  condition : String
  details : String
  userIds : List Nat
deriving DecidableEq

/-- The decimal digit character for `d` (`'9'` acts as the catch-all so the
function is total; it is only applied to `d < 10`). -/
def digitChar (d : Nat) : Char :=
  if d = 0 then '0' else if d = 1 then '1' else if d = 2 then '2'
  else if d = 3 then '3' else if d = 4 then '4' else if d = 5 then '5'
  else if d = 6 then '6' else if d = 7 then '7' else if d = 8 then '8'
  else '9'

/-- Fuel-indexed decimal digit list of a number (most significant first).
With fuel `> n` this is the usual decimal rendering. -/
def natDigitsAux : Nat → Nat → List Char
  | 0, _ => []
  | fuel + 1, n =>
    if n < 10 then [digitChar n]
    else natDigitsAux fuel (n / 10) ++ [digitChar (n % 10)]

/-- Decimal string of a number, as JavaScript template interpolation
renders a non-negative integer. -/
def natStr (n : Nat) : String := String.mk (natDigitsAux (n + 1) n)

/-- Rule identifier of shape `cat-nm-c` built by the source's template
literals (e.g. `profile-${profileName}-${ruleIdCounter++}`). -/
def ctrId (cat nm : String) (c : Nat) : String :=
  cat ++ "-" ++ nm ++ "-" ++ natStr c

/-- Is `pat` a prefix of `s` (character lists)? -/
def isPrefixList : List Char → List Char → Bool
  | [], _ => true
  | _ :: _, [] => false
  | p :: ps, c :: cs => p == c && isPrefixList ps cs

/-- Does `s` contain `pat` as a contiguous substring (character lists)? -/
def hasSubList (pat : List Char) : List Char → Bool
  | [] => pat.isEmpty
  | c :: cs => isPrefixList pat (c :: cs) || hasSubList pat cs

/-- JavaScript `s.includes(pat)` on strings. -/
def strContains (s pat : String) : Bool := hasSubList pat.data s.data

/-- JavaScript `s.toLowerCase()` (ASCII lowering, which is all the data
model produces). -/
def strLower (s : String) : String := String.mk (s.data.map Char.toLower)

/-- JavaScript `s.trim()`: strip whitespace from both ends. -/
def strTrim (s : String) : String :=
  String.mk
    (((s.data.dropWhile Char.isWhitespace).reverse.dropWhile
      Char.isWhitespace).reverse)

/-- First-occurrence de-duplication: the iteration order of a JavaScript
object's (non-integer-like) string keys and of a `Set`, built by one pass
that appends unseen elements. -/
def collectKeys (acc : List String) : List DirUser → List String
  | [] => acc
  | u :: us => collectKeys (if u.profile ∈ acc then acc else acc ++ [u.profile]) us

/-- The key list of `profileGroups` as built by the reconstruction's first
pass: each user's `profile`, first occurrence order. -/
def profileKeys (allUsers : List DirUser) : List String := collectKeys [] allUsers

/-- `profileGroups[p].total`: the users whose `profile` is `p`, in
`allUsers` order. -/
def profGroup (allUsers : List DirUser) (p : String) : List DirUser :=
  allUsers.filter (fun u => u.profile == p)

/-- `profileGroups[p].assigned`: the users of the group that are in the
dashboard's assignment set. -/
def profAssigned (dashIds : List Nat) (allUsers : List DirUser) (p : String) :
    List DirUser :=
  (profGroup allUsers p).filter (fun u => dashIds.contains u.id)

/-- The emission test of the Profile pass:
`assigned.length > 0 && assigned.length === total.length`. -/
def profCond (dashIds : List Nat) (allUsers : List DirUser) (p : String) : Bool :=
  decide (0 < (profAssigned dashIds allUsers p).length) &&
    (profAssigned dashIds allUsers p).length == (profGroup allUsers p).length

/-- The Profile rule pushed for profile `p` at counter value `c`. -/
def profRule (dashIds : List Nat) (allUsers : List DirUser) (p : String) (c : Nat) :
    AccessRule :=
  { id := ctrId "profile" p c
  , ruleType := "Profile"
  , condition := p
  , details := natStr (profAssigned dashIds allUsers p).length ++ " user(s)"
  , userIds := (profAssigned dashIds allUsers p).map (·.id) }

/-- Reconstruction state: the rules emitted so far, the covered-id set
(`assignedUserIds` in the source) and the id counter (`ruleIdCounter`). -/
structure ReconState where
  rules : List AccessRule
  covered : List Nat
  ctr : Nat
deriving DecidableEq

/-- One iteration of the Profile pass
(`Object.entries(profileGroups).forEach`). -/
def profileStep (dashIds : List Nat) (allUsers : List DirUser)
    (s : ReconState) (p : String) : ReconState :=
  if profCond dashIds allUsers p then
    { rules := s.rules ++ [profRule dashIds allUsers p s.ctr]
    , covered := s.covered ++ (profAssigned dashIds allUsers p).map (·.id)
    , ctr := s.ctr + 1 }
  else s

/-- The whole Profile pass of the reconstruction. -/
def profilePhase (dashIds : List Nat) (allUsers : List DirUser)
    (s : ReconState) : ReconState :=
  (profileKeys allUsers).foldl (profileStep dashIds allUsers) s

/-- `unassignedRoleMembers`: the role's member ids not yet covered. -/
def unassignedMembers (covered : List Nat) (role : Role) : List Nat :=
  (role.members.map (·.userId)).filter (fun uid => !(covered.contains uid))

/-- `assignedFromRole`: the role's member ids that are in the dashboard's
assignment set and not yet covered. -/
def assignedFromRole (dashIds covered : List Nat) (role : Role) : List Nat :=
  (role.members.map (·.userId)).filter
    (fun uid => dashIds.contains uid && !(covered.contains uid))

/-- The Role rule pushed for `role` at counter value `c`. -/
def roleRule (dashIds covered : List Nat) (role : Role) (c : Nat) : AccessRule :=
  { id := ctrId "role" (natStr role.id) c
  , ruleType := "Role"
  , condition := role.roleName
  , details := natStr (assignedFromRole dashIds covered role).length ++
      " user(s) - " ++ role.roleType
  , userIds := assignedFromRole dashIds covered role }

/-- One iteration of the Role pass (`allRoles.forEach`). -/
def roleStep (dashIds : List Nat) (s : ReconState) (role : Role) : ReconState :=
  if 0 < role.members.length then
    if 0 < (unassignedMembers s.covered role).length ∧
        (assignedFromRole dashIds s.covered role).length =
          (unassignedMembers s.covered role).length then
      { rules := s.rules ++ [roleRule dashIds s.covered role s.ctr]
      , covered := s.covered ++ assignedFromRole dashIds s.covered role
      , ctr := s.ctr + 1 }
    else s
  else s

/-- The whole Role pass of the reconstruction. -/
def rolePhase (dashIds : List Nat) (allRoles : List Role) (s : ReconState) :
    ReconState :=
  allRoles.foldl (roleStep dashIds) s

/-- The User rule pushed for a `dashboard.users` entry at list index `idx`. -/
def userRule (idx : Nat) (u : DashUser) : AccessRule :=
  { id := ctrId "user" (natStr u.userId) idx
  , ruleType := "User"
  , condition := u.userName
  , details := if u.profile == "" then "N/A" else u.profile
  , userIds := [u.userId] }

/-- One iteration of the User pass (`dashboard.users.forEach` with index). -/
def userStep (s : ReconState) (iu : Nat × DashUser) : ReconState :=
  if s.covered.contains iu.2.userId then s
  else
    { rules := s.rules ++ [userRule iu.1 iu.2]
    , covered := s.covered ++ [iu.2.userId]
    , ctr := s.ctr }

/-- The whole User pass of the reconstruction. -/
def userPhase (dashUsers : List DashUser) (s : ReconState) : ReconState :=
  dashUsers.enum.foldl userStep s

/-- The reconstruction performed by the modal's initialisation effect:
Profile pass, then Role pass, then User pass, starting from an empty rule
list, an empty covered set and the initial id counter `c0` (`Date.now()`). -/
def reconstruct (dashUsers : List DashUser) (allUsers : List DirUser)
    (allRoles : List Role) (c0 : Nat) : List AccessRule :=
  let dashIds := dashUsers.map (·.userId)
  (userPhase dashUsers
    (rolePhase dashIds allRoles
      (profilePhase dashIds allUsers ⟨[], [], c0⟩))).rules

/-- The id set collected from a rule list by inserting every rule's
`userIds` into a `Set` (insertion order).  This is exactly the code of both
`getExistingUserIds` and the save handler's `allUserIds` collection. -/
def collectUserIds (rules : List AccessRule) : List Nat :=
  rules.foldl
    (fun acc r => r.userIds.foldl
      (fun a i => if a.contains i then a else a ++ [i]) acc) []

/-- `getExistingUserIds` (lines 189-195). -/
def getExistingUserIds (rules : List AccessRule) : List Nat := collectUserIds rules

/-- The flat user id list sent to the server by `handleSave`
(lines 418-428): the deduplicated union of all rules' `userIds`. -/
def handleSaveUsers (rules : List AccessRule) : List Nat := collectUserIds rules

/-- The User rule pushed by the add-rule users tab for a resolved user. -/
def addUserRule (u : DirUser) (uid c : Nat) : AccessRule :=
  { id := ctrId "user" (natStr uid) c
  , ruleType := "User"
  , condition := u.userName
  , details := if u.profile == "" then "N/A" else u.profile
  , userIds := [uid] }

/-- One step of the add-rule users tab: look the selected id up in
`allUsers` and, when found, push an individual User rule (no check against
`existingUserIds`). -/
def addUserStep (allUsers : List DirUser) (s : List AccessRule × Nat)
    (uid : Nat) : List AccessRule × Nat :=
  match allUsers.find? (fun u => u.id == uid) with
  | some u => (s.1 ++ [addUserRule u uid s.2], s.2 + 1)
  | none => s

/-- The members of profile `p` not covered by `existing`
(`usersInProfile` in `handleAddRules`). -/
def uncoveredProfileUsers (allUsers : List DirUser) (existing : List Nat)
    (p : String) : List DirUser :=
  allUsers.filter (fun u => u.profile == p && !(existing.contains u.id))

/-- The Profile rule pushed by the add-rule profiles tab. -/
def addProfRule (allUsers : List DirUser) (existing : List Nat) (p : String)
    (c : Nat) : AccessRule :=
  { id := ctrId "profile" p c
  , ruleType := "Profile"
  , condition := p
  , details := natStr (uncoveredProfileUsers allUsers existing p).length ++
      " user(s)"
  , userIds := (uncoveredProfileUsers allUsers existing p).map (·.id) }

/-- One step of the add-rule profiles tab. -/
def addProfileStep (allUsers : List DirUser) (existing : List Nat)
    (s : List AccessRule × Nat) (p : String) : List AccessRule × Nat :=
  if 0 < (uncoveredProfileUsers allUsers existing p).length then
    (s.1 ++ [addProfRule allUsers existing p s.2], s.2 + 1)
  else s

/-- The members of `role` not covered by `existing`
(`newMembers` in `handleAddRules`). -/
def uncoveredRoleMembers (existing : List Nat) (role : Role) : List RoleMember :=
  role.members.filter (fun m => !(existing.contains m.userId))

/-- The Role rule pushed by the add-rule roles tab. -/
def addRoleRule (existing : List Nat) (role : Role) (rid c : Nat) : AccessRule :=
  { id := ctrId "role" (natStr rid) c
  , ruleType := "Role"
  , condition := role.roleName
  , details := natStr (uncoveredRoleMembers existing role).length ++
      " user(s) - " ++ role.roleType
  , userIds := (uncoveredRoleMembers existing role).map (·.userId) }

/-- One step of the add-rule roles tab. -/
def addRoleStep (allRoles : List Role) (existing : List Nat)
    (s : List AccessRule × Nat) (rid : Nat) : List AccessRule × Nat :=
  match allRoles.find? (fun r => r.id == rid) with
  | some role =>
      if 0 < (uncoveredRoleMembers existing role).length then
        (s.1 ++ [addRoleRule existing role rid s.2], s.2 + 1)
      else s
  | none => s

/-- The new rules pushed by one `handleAddRules` call for the active tab;
the handler then sets `accessRules` to the old list followed by these.
`existingUserIds` is computed once, before any new rule is built. -/
def handleAddRulesNew (tab : String) (selUsers : List Nat)
    (selProfiles : List String) (selRoles : List Nat)
    (rules : List AccessRule) (allUsers : List DirUser) (allRoles : List Role)
    (c0 : Nat) : List AccessRule :=
  let existing := getExistingUserIds rules
  if tab == "users" then (selUsers.foldl (addUserStep allUsers) ([], c0)).1
  else if tab == "profiles" then
    (selProfiles.foldl (addProfileStep allUsers existing) ([], c0)).1
  else if tab == "roles" then
    (selRoles.foldl (addRoleStep allRoles existing) ([], c0)).1
  else []

/-- The rule list after one `handleAddRules` call. -/
def handleAddRules (tab : String) (selUsers : List Nat)
    (selProfiles : List String) (selRoles : List Nat)
    (rules : List AccessRule) (allUsers : List DirUser) (allRoles : List Role)
    (c0 : Nat) : List AccessRule :=
  rules ++ handleAddRulesNew tab selUsers selProfiles selRoles rules allUsers allRoles c0

/-- `getRuleUsers` (lines 351-357): resolve a rule's `userIds` against
`allUsers`, synthesising a `User-<id>` placeholder for ids absent from the
directory snapshot. -/
def getRuleUsers (allUsers : List DirUser) (rule : AccessRule) : List DirUser :=
  rule.userIds.map (fun uid =>
    match allUsers.find? (fun u => u.id == uid) with
    | some u => u
    | none => { id := uid, userName := "User-" ++ natStr uid, profile := "Unknown" })

/-- `availableProfiles` (line 176): profile names of `allUsers`,
deduplicated, falsy (empty) names removed. -/
def availableProfiles (allUsers : List DirUser) : List String :=
  (profileKeys allUsers).filter (fun p => !(p == ""))

/-- The single search test applied to one rule by `getFilteredRules`
(the search term is already lowercased). -/
def searchMatch (allUsers : List DirUser) (searchLower : String)
    (rule : AccessRule) : Bool :=
  strContains (strLower rule.condition) searchLower ||
  strContains (strLower rule.ruleType) searchLower ||
  strContains (strLower rule.details) searchLower ||
  ((rule.ruleType == "Profile" || rule.ruleType == "Role") &&
    rule.userIds.any (fun uid =>
      match allUsers.find? (fun u => u.id == uid) with
      | some u => strContains (strLower u.userName) searchLower
      | none => false))

/-- `getFilteredRules` (lines 227-264): type filter then free-text search. -/
def getFilteredRules (ruleFilters : List String) (ruleSearchTerm : String)
    (rules : List AccessRule) (allUsers : List DirUser) : List AccessRule :=
  let filtered :=
    if ruleFilters.contains "all" then rules
    else rules.filter (fun r => ruleFilters.contains (strLower r.ruleType))
  if strTrim ruleSearchTerm == "" then filtered
  else filtered.filter (searchMatch allUsers (strLower ruleSearchTerm))

/-- `handleFilterChange` (lines 208-224): toggle one entry of the
rule-type filter list. -/
def handleFilterChange (flt : String) (ruleFilters : List String) :
    List String :=
  if flt == "all" then ["all"]
  else
    let nf := ruleFilters.filter (fun f => !(f == "all"))
    let nf2 := if nf.contains flt then nf.filter (fun f => !(f == flt))
               else nf ++ [flt]
    if nf2.isEmpty then ["all"] else nf2

/-- Sanity check: two fully assigned profile groups become two Profile
rules with time-counter based identifiers. -/
lemma reconstruct_sanity :
    reconstruct
      [⟨1, "Alice", "Admin"⟩, ⟨2, "Bob", "Admin"⟩, ⟨3, "Carol", "Ops"⟩]
      [⟨1, "Alice", "Admin"⟩, ⟨2, "Bob", "Admin"⟩, ⟨3, "Carol", "Ops"⟩]
      [] 0
    = [⟨"profile-Admin-0", "Profile", "Admin", "2 user(s)", [1, 2]⟩,
       ⟨"profile-Ops-1", "Profile", "Ops", "1 user(s)", [3]⟩] := by decide

/-! ## Decimal strings and rule identifiers -/

lemma strData_append (s t : String) : (s ++ t).data = s.data ++ t.data := rfl

lemma string_eq_of_data {s t : String} (h : s.data = t.data) : s = t := by
  cases s; cases t; exact congrArg String.mk h

lemma digitChar_ne_dash (d : Nat) : digitChar d ≠ '-' := by
  unfold digitChar; split_ifs <;> decide

lemma digitChar_inj {a b : Nat} (ha : a < 10) (hb : b < 10)
    (h : digitChar a = digitChar b) : a = b := by
  have key : ∀ x, x < 10 → ∀ y, y < 10 → digitChar x = digitChar y → x = y := by
    decide
  exact key a ha b hb h

lemma natDigitsAux_ne_dash :
    ∀ fuel n, n < fuel → ∀ c ∈ natDigitsAux fuel n, c ≠ '-' := by
  intro fuel
  induction fuel with
  | zero => intro n hn; omega
  | succ f ih =>
    intro n hn c hc
    rw [natDigitsAux] at hc
    by_cases h10 : n < 10
    · simp [h10] at hc
      subst hc; exact digitChar_ne_dash n
    · simp [h10] at hc
      rcases hc with hc | hc
      · have hdiv : n / 10 < f := by
          have h1 : n / 10 < n := Nat.div_lt_self (by omega) (by omega)
          omega
        exact ih (n / 10) hdiv c hc
      · subst hc; exact digitChar_ne_dash (n % 10)

lemma natDigitsAux_ne_nil :
    ∀ fuel n, n < fuel → natDigitsAux fuel n ≠ [] := by
  intro fuel n hn
  cases fuel with
  | zero => omega
  | succ f =>
    rw [natDigitsAux]
    by_cases h10 : n < 10 <;> simp [h10]

lemma append_singleton_inj {α : Type} {l₁ l₂ : List α} {a b : α}
    (h : l₁ ++ [a] = l₂ ++ [b]) : l₁ = l₂ ∧ a = b := by
  have h' := congrArg List.reverse h
  simp [List.reverse_append] at h'
  obtain ⟨hab, hl⟩ := h'
  exact ⟨by simpa using congrArg List.reverse hl, hab⟩

lemma natDigitsAux_inj :
    ∀ f₁ n f₂ m, n < f₁ → m < f₂ →
      natDigitsAux f₁ n = natDigitsAux f₂ m → n = m := by
  intro f₁
  induction f₁ with
  | zero => intro n f₂ m hn; omega
  | succ f ih =>
    intro n f₂ m hn hm h
    cases f₂ with
    | zero => omega
    | succ g =>
      rw [natDigitsAux, natDigitsAux] at h
      by_cases hn10 : n < 10 <;> by_cases hm10 : m < 10
      · simp [hn10, hm10] at h
        exact digitChar_inj hn10 hm10 h
      · exfalso
        simp [hn10, hm10] at h
        have hdiv : m / 10 < g := by
          have : m / 10 < m := Nat.div_lt_self (by omega) (by omega)
          omega
        have hne := natDigitsAux_ne_nil g (m / 10) hdiv
        rcases List.exists_cons_of_ne_nil hne with ⟨x, xs, hx⟩
        have hlen := congrArg List.length h
        rw [hx] at hlen
        simp only [List.length_cons, List.length_append, List.length_nil,
          List.length_singleton] at hlen
        omega
      · exfalso
        simp [hn10, hm10] at h
        have hdiv : n / 10 < f := by
          have : n / 10 < n := Nat.div_lt_self (by omega) (by omega)
          omega
        have hne := natDigitsAux_ne_nil f (n / 10) hdiv
        rcases List.exists_cons_of_ne_nil hne with ⟨x, xs, hx⟩
        have hlen := congrArg List.length h
        rw [hx] at hlen
        simp only [List.length_cons, List.length_append, List.length_nil,
          List.length_singleton] at hlen
        omega
      · simp [hn10, hm10] at h
        obtain ⟨hpre, hlast⟩ := append_singleton_inj h
        have hdivn : n / 10 < f := by
          have : n / 10 < n := Nat.div_lt_self (by omega) (by omega)
          omega
        have hdivm : m / 10 < g := by
          have : m / 10 < m := Nat.div_lt_self (by omega) (by omega)
          omega
        have hdiv := ih (n / 10) g (m / 10) hdivn hdivm hpre
        have hmod := digitChar_inj (Nat.mod_lt n (by omega))
          (Nat.mod_lt m (by omega)) hlast
        omega

lemma natStr_ne_dash (n : Nat) : ∀ c ∈ (natStr n).data, c ≠ '-' := by
  intro c hc
  exact natDigitsAux_ne_dash (n + 1) n (by omega) c hc

lemma natStr_inj {n m : Nat} (h : natStr n = natStr m) : n = m := by
  have hd : natDigitsAux (n + 1) n = natDigitsAux (m + 1) m := by
    have := congrArg String.data h
    simpa [natStr] using this
  exact natDigitsAux_inj (n + 1) n (m + 1) m (by omega) (by omega) hd

lemma takeWhile_append_dash (p : Char → Bool) :
    ∀ (l₁ : List Char) (c : Char) (l₂ : List Char),
      (∀ x ∈ l₁, p x = true) → p c = false →
      ((l₁ ++ c :: l₂).takeWhile p) = l₁ := by
  intro l₁
  induction l₁ with
  | nil => intro c l₂ _ hc; simp [List.takeWhile_cons, hc]
  | cons a as ih =>
    intro c l₂ h hc
    have ha : p a = true := h a (by simp)
    simp only [List.cons_append, List.takeWhile_cons, ha, if_true]
    rw [ih c l₂ (fun x hx => h x (by simp [hx])) hc]

lemma dash_suffix_inj {l₁ l₂ a b : List Char}
    (ha : ∀ c ∈ a, c ≠ '-') (hb : ∀ c ∈ b, c ≠ '-')
    (h : l₁ ++ '-' :: a = l₂ ++ '-' :: b) : a = b := by
  have h' : a.reverse ++ '-' :: l₁.reverse = b.reverse ++ '-' :: l₂.reverse := by
    have := congrArg List.reverse h
    simpa [List.reverse_append, List.append_assoc] using this
  have hta := takeWhile_append_dash (fun c => !(c == '-')) a.reverse '-' l₁.reverse
    (fun x hx => by
      have := ha x (by simpa using hx)
      simp [this]) (by decide)
  have htb := takeWhile_append_dash (fun c => !(c == '-')) b.reverse '-' l₂.reverse
    (fun x hx => by
      have := hb x (by simpa using hx)
      simp [this]) (by decide)
  have : a.reverse = b.reverse := by
    rw [← hta, ← htb, h']
  simpa using congrArg List.reverse this

lemma ctrId_data (cat nm : String) (c : Nat) :
    (ctrId cat nm c).data =
      (cat.data ++ '-' :: nm.data) ++ '-' :: (natStr c).data := by
  have hdash : ("-" : String).data = ['-'] := rfl
  simp [ctrId, strData_append, hdash, List.append_assoc]

lemma ctrId_inj_ctr {cat₁ nm₁ cat₂ nm₂ : String} {c₁ c₂ : Nat}
    (h : c₁ ≠ c₂) : ctrId cat₁ nm₁ c₁ ≠ ctrId cat₂ nm₂ c₂ := by
  intro he
  apply h
  have hd := congrArg String.data he
  rw [ctrId_data, ctrId_data] at hd
  have := dash_suffix_inj (natStr_ne_dash c₁) (natStr_ne_dash c₂) hd
  exact natStr_inj (string_eq_of_data this)

/-! ## Set-collection and enumeration lemmas -/

lemma insertFold_mem (x : Nat) :
    ∀ (ids : List Nat) (acc : List Nat),
      (x ∈ ids.foldl (fun a i => if a.contains i then a else a ++ [i]) acc) ↔
        x ∈ acc ∨ x ∈ ids := by
  intro ids
  induction ids with
  | nil => simp
  | cons i is ih =>
    intro acc
    simp only [List.foldl_cons]
    by_cases h : acc.contains i
    · have hi : i ∈ acc := by simpa using h
      rw [if_pos h, ih]
      constructor
      · rintro (hx | hx)
        · exact Or.inl hx
        · exact Or.inr (by simp [hx])
      · rintro (hx | hx)
        · exact Or.inl hx
        · rcases List.mem_cons.mp hx with hx | hx
          · exact Or.inl (hx ▸ hi)
          · exact Or.inr hx
    · rw [if_neg h, ih]
      simp only [List.mem_append, List.mem_singleton, List.mem_cons]
      tauto

lemma collectUserIds_mem (rules : List AccessRule) (x : Nat) :
    x ∈ collectUserIds rules ↔ ∃ r ∈ rules, x ∈ r.userIds := by
  suffices h : ∀ (rs : List AccessRule) (acc : List Nat),
      (x ∈ rs.foldl (fun acc r => r.userIds.foldl
          (fun a i => if a.contains i then a else a ++ [i]) acc) acc) ↔
        x ∈ acc ∨ ∃ r ∈ rs, x ∈ r.userIds by
    rw [collectUserIds, h]
    simp
  intro rs
  induction rs with
  | nil => simp
  | cons r rs ih =>
    intro acc
    simp only [List.foldl_cons]
    rw [ih, insertFold_mem]
    constructor
    · rintro ((hx | hx) | ⟨r', hr', hx⟩)
      · exact Or.inl hx
      · exact Or.inr ⟨r, by simp, hx⟩
      · exact Or.inr ⟨r', by simp [hr'], hx⟩
    · rintro (hx | ⟨r', hr', hx⟩)
      · exact Or.inl (Or.inl hx)
      · rcases List.mem_cons.mp hr' with h | h
        · exact Or.inl (Or.inr (h ▸ hx))
        · exact Or.inr ⟨r', h, hx⟩

lemma collectKeys_mem (p : String) :
    ∀ (us : List DirUser) (acc : List String),
      p ∈ collectKeys acc us ↔ p ∈ acc ∨ p ∈ us.map (·.profile) := by
  intro us
  induction us with
  | nil => simp [collectKeys]
  | cons u us ih =>
    intro acc
    rw [collectKeys, ih]
    by_cases h : u.profile ∈ acc
    · rw [if_pos h]
      simp only [List.map_cons, List.mem_cons]
      constructor
      · rintro (hx | hx)
        · exact Or.inl hx
        · exact Or.inr (Or.inr hx)
      · rintro (hx | hx | hx)
        · exact Or.inl hx
        · exact Or.inl (hx ▸ h)
        · exact Or.inr hx
    · rw [if_neg h]
      simp only [List.mem_append, List.mem_singleton, List.map_cons, List.mem_cons]
      tauto

lemma collectKeys_nodup :
    ∀ (us : List DirUser) (acc : List String), acc.Nodup →
      (collectKeys acc us).Nodup := by
  intro us
  induction us with
  | nil => intro acc h; simpa [collectKeys] using h
  | cons u us ih =>
    intro acc h
    rw [collectKeys]
    by_cases hmem : u.profile ∈ acc
    · rw [if_pos hmem]; exact ih acc h
    · rw [if_neg hmem]
      apply ih
      simp [List.nodup_append, h, hmem]

lemma profileKeys_mem (allUsers : List DirUser) (p : String) :
    p ∈ profileKeys allUsers ↔ p ∈ allUsers.map (·.profile) := by
  rw [profileKeys, collectKeys_mem]
  simp

lemma profileKeys_nodup (allUsers : List DirUser) : (profileKeys allUsers).Nodup :=
  collectKeys_nodup allUsers [] (by simp)

lemma mem_enumFrom_le {α : Type} :
    ∀ (l : List α) (n : Nat) (iu : Nat × α), iu ∈ List.enumFrom n l → n ≤ iu.1 := by
  intro l
  induction l with
  | nil => simp [List.enumFrom]
  | cons a as ih =>
    intro n iu h
    rw [List.enumFrom] at h
    rcases List.mem_cons.mp h with h | h
    · subst h; simp
    · have := ih (n + 1) iu h; omega

lemma enumFrom_pairwise_fst {α : Type} :
    ∀ (l : List α) (n : Nat),
      List.Pairwise (fun a b => a.1 ≠ b.1) (List.enumFrom n l) := by
  intro l
  induction l with
  | nil => simp [List.enumFrom]
  | cons a as ih =>
    intro n
    rw [List.enumFrom]
    refine List.Pairwise.cons ?_ (ih (n + 1))
    intro iu hiu
    have := mem_enumFrom_le as (n + 1) iu hiu
    simp only []
    omega

lemma mem_enumFrom_snd {α : Type} :
    ∀ (l : List α) (n : Nat) (iu : Nat × α), iu ∈ List.enumFrom n l → iu.2 ∈ l := by
  intro l
  induction l with
  | nil => simp [List.enumFrom]
  | cons a as ih =>
    intro n iu h
    rw [List.enumFrom] at h
    rcases List.mem_cons.mp h with h | h
    · subst h; simp
    · exact List.mem_cons_of_mem a (ih (n + 1) iu h)

lemma mem_enumFrom_of_mem {α : Type} :
    ∀ (l : List α) (n : Nat) (a : α), a ∈ l → ∃ i, (i, a) ∈ List.enumFrom n l := by
  intro l
  induction l with
  | nil => simp
  | cons b bs ih =>
    intro n a h
    rcases List.mem_cons.mp h with h | h
    · exact ⟨n, by simp [List.enumFrom, h]⟩
    · rcases ih (n + 1) a h with ⟨i, hi⟩
      exact ⟨i, by simp [List.enumFrom, hi]⟩

lemma enumFrom_map_userName :
    ∀ (l : List DashUser) (n : Nat),
      (List.enumFrom n l).map (fun iu => iu.2.userName) = l.map (·.userName) := by
  intro l
  induction l with
  | nil => simp [List.enumFrom]
  | cons a as ih => intro n; simp [List.enumFrom, ih (n + 1)]

lemma enumFrom_map_userId :
    ∀ (l : List DashUser) (n : Nat),
      (List.enumFrom n l).map (fun iu => iu.2.userId) = l.map (·.userId) := by
  intro l
  induction l with
  | nil => simp [List.enumFrom]
  | cons a as ih => intro n; simp [List.enumFrom, ih (n + 1)]

lemma ctrId_cat_ne {cat₁ nm₁ cat₂ nm₂ : String} {c₁ c₂ : Nat}
    (h1 : ∀ c ∈ cat₁.data, c ≠ '-') (h2 : ∀ c ∈ cat₂.data, c ≠ '-')
    (hne : cat₁.data ≠ cat₂.data) :
    ctrId cat₁ nm₁ c₁ ≠ ctrId cat₂ nm₂ c₂ := by
  intro he
  apply hne
  have hd := congrArg String.data he
  rw [ctrId_data, ctrId_data] at hd
  simp only [List.append_assoc, List.cons_append] at hd
  have h1' := congrArg (List.takeWhile (fun c => !(c == '-'))) hd
  rw [takeWhile_append_dash _ cat₁.data '-' _
      (fun x hx => by have := h1 x hx; simp [this]) (by decide),
    takeWhile_append_dash _ cat₂.data '-' _
      (fun x hx => by have := h2 x hx; simp [this]) (by decide)] at h1'
  exact h1'

/-! ## Profile pass -/

/-- Decomposition of a Profile-pass fold from any start state: the emitted
suffix is determined (up to identifiers) by the keys passing the emission
test; covered ids grow by exactly the emitted `userIds`; identifiers carry
counters from the strictly increasing counter range. -/
lemma profileFold_spec (dashIds : List Nat) (allUsers : List DirUser) :
    ∀ (keys : List String) (s : ReconState), ∃ Δ : List AccessRule,
      (keys.foldl (profileStep dashIds allUsers) s).rules = s.rules ++ Δ ∧
      (keys.foldl (profileStep dashIds allUsers) s).covered =
        s.covered ++ Δ.flatMap (·.userIds) ∧
      s.ctr ≤ (keys.foldl (profileStep dashIds allUsers) s).ctr ∧
      Δ.map (fun r => (r.ruleType, r.condition, r.userIds)) =
        (keys.filter (profCond dashIds allUsers)).map
          (fun p => ("Profile", p, (profAssigned dashIds allUsers p).map (·.id))) ∧
      (∀ r ∈ Δ, ∃ c, s.ctr ≤ c ∧
        c < (keys.foldl (profileStep dashIds allUsers) s).ctr ∧
        r.id = ctrId "profile" r.condition c) ∧
      List.Pairwise (fun r r' => r.id ≠ r'.id) Δ := by
  intro keys
  induction keys with
  | nil => intro s; exact ⟨[], by simp, by simp, le_refl _, by simp, by simp, by simp⟩
  | cons p ps ih =>
    intro s
    by_cases hc : profCond dashIds allUsers p
    · have hs' : profileStep dashIds allUsers s p =
        { rules := s.rules ++ [profRule dashIds allUsers p s.ctr]
        , covered := s.covered ++ (profAssigned dashIds allUsers p).map (·.id)
        , ctr := s.ctr + 1 } := by
        rw [profileStep, if_pos hc]
      obtain ⟨Δ', h1, h2, h3, h4, h5, h6⟩ := ih (profileStep dashIds allUsers s p)
      rw [hs'] at h1 h2 h3 h5
      simp only [List.foldl_cons, hs']
      simp only at h1 h2 h3 h5
      refine ⟨profRule dashIds allUsers p s.ctr :: Δ', ?_, ?_, ?_, ?_, ?_, ?_⟩
      · rw [h1]; simp [List.append_assoc]
      · rw [h2]; simp [profRule, List.append_assoc]
      · omega
      · simp only [List.filter_cons, hc, List.map_cons, if_true]
        exact congrArg (List.cons _) h4
      · intro r hr
        rcases List.mem_cons.mp hr with hr | hr
        · subst hr
          exact ⟨s.ctr, le_refl _, by omega, rfl⟩
        · rcases h5 r hr with ⟨c, hc1, hc2, hc3⟩
          exact ⟨c, by omega, hc2, hc3⟩
      · refine List.Pairwise.cons ?_ h6
        intro r' hr'
        rcases h5 r' hr' with ⟨c, hc1, hc2, hc3⟩
        have hpid : (profRule dashIds allUsers p s.ctr).id = ctrId "profile" p s.ctr := rfl
        rw [hpid, hc3]
        exact ctrId_inj_ctr (by omega)
    · have hs' : profileStep dashIds allUsers s p = s := by
        rw [profileStep, if_neg hc]
      obtain ⟨Δ', h1, h2, h3, h4, h5, h6⟩ := ih (profileStep dashIds allUsers s p)
      rw [hs'] at h1 h2 h3 h5
      simp only [List.foldl_cons, hs']
      refine ⟨Δ', h1, h2, h3, ?_, h5, h6⟩
      simp only [List.filter_cons, hc, if_false]
      exact h4

/-! ## Role pass -/

/-- Decomposition of a Role-pass fold from any start state: each emitted
rule's ids are assigned, previously uncovered role-member ids; emitted
rules are mutually disjoint; conditions follow the role list order;
identifiers carry counters from the strictly increasing counter range. -/
lemma roleFold_spec (dashIds : List Nat) :
    ∀ (roles : List Role) (s : ReconState), ∃ Δ : List AccessRule,
      (roles.foldl (roleStep dashIds) s).rules = s.rules ++ Δ ∧
      (roles.foldl (roleStep dashIds) s).covered =
        s.covered ++ Δ.flatMap (·.userIds) ∧
      s.ctr ≤ (roles.foldl (roleStep dashIds) s).ctr ∧
      (∀ r ∈ Δ, r.ruleType = "Role" ∧ ∀ x ∈ r.userIds,
        x ∈ dashIds ∧ x ∉ s.covered ∧
          ∃ role ∈ roles, x ∈ role.members.map (·.userId)) ∧
      List.Pairwise (fun r r' => ∀ x ∈ r.userIds, x ∉ r'.userIds) Δ ∧
      List.Sublist (Δ.map (·.condition)) (roles.map (·.roleName)) ∧
      (∀ r ∈ Δ, ∃ nm c, s.ctr ≤ c ∧
        c < (roles.foldl (roleStep dashIds) s).ctr ∧ r.id = ctrId "role" nm c) ∧
      List.Pairwise (fun r r' => r.id ≠ r'.id) Δ := by
  intro roles
  induction roles with
  | nil =>
    intro s
    exact ⟨[], by simp, by simp, le_refl _, by simp, by simp, by simp, by simp, by simp⟩
  | cons role roles ih =>
    intro s
    by_cases hm : 0 < role.members.length
    · by_cases hcnd : 0 < (unassignedMembers s.covered role).length ∧
          (assignedFromRole dashIds s.covered role).length =
            (unassignedMembers s.covered role).length
      · have hs' : roleStep dashIds s role =
          { rules := s.rules ++ [roleRule dashIds s.covered role s.ctr]
          , covered := s.covered ++ assignedFromRole dashIds s.covered role
          , ctr := s.ctr + 1 } := by
          rw [roleStep, if_pos hm, if_pos hcnd]
        obtain ⟨Δ', h1, h2, h3, h4, h5, h6, h7, h8⟩ := ih (roleStep dashIds s role)
        rw [hs'] at h1 h2 h3 h4 h7
        simp only [List.foldl_cons, hs']
        simp only at h1 h2 h3 h4 h7
        refine ⟨roleRule dashIds s.covered role s.ctr :: Δ',
          ?_, ?_, ?_, ?_, ?_, ?_, ?_, ?_⟩
        · rw [h1]; simp [List.append_assoc]
        · rw [h2]; simp [roleRule, List.append_assoc]
        · omega
        · intro r hr
          rcases List.mem_cons.mp hr with hr | hr
          · subst hr
            refine ⟨rfl, ?_⟩
            intro x hx
            simp only [roleRule, assignedFromRole, List.mem_filter, Bool.and_eq_true,
              Bool.not_eq_true'] at hx
            obtain ⟨hxm, hxd, hxc⟩ := hx
            refine ⟨by simpa using hxd, ?_, role, by simp, hxm⟩
            intro hmem
            have hcontains : s.covered.contains x = true := by simpa using hmem
            rw [hxc] at hcontains
            exact Bool.false_ne_true hcontains
          · obtain ⟨hty, hx⟩ := h4 r hr
            refine ⟨hty, ?_⟩
            intro x hxm
            obtain ⟨hd, hc, role', hrole', hmem⟩ := hx x hxm
            have hnotc : x ∉ s.covered := fun hmc => hc (by simp [hmc])
            exact ⟨hd, hnotc, role', by simp [hrole'], hmem⟩
        · refine List.Pairwise.cons ?_ h5
          intro r' hr' x hx hx'
          have hxafr : x ∈ assignedFromRole dashIds s.covered role := by
            simpa [roleRule] using hx
          exact ((h4 r' hr').2 x hx').2.1 (List.mem_append_right _ hxafr)
        · exact List.Sublist.cons₂ _ h6
        · intro r hr
          rcases List.mem_cons.mp hr with hr | hr
          · subst hr
            exact ⟨natStr role.id, s.ctr, le_refl _, by omega, rfl⟩
          · obtain ⟨nm, c, hc1, hc2, hc3⟩ := h7 r hr
            exact ⟨nm, c, by omega, hc2, hc3⟩
        · refine List.Pairwise.cons ?_ h8
          intro r' hr'
          obtain ⟨nm, c, hc1, hc2, hc3⟩ := h7 r' hr'
          show ctrId "role" (natStr role.id) s.ctr ≠ r'.id
          rw [hc3]
          exact ctrId_inj_ctr (by omega)
      · have hs' : roleStep dashIds s role = s := by
          rw [roleStep, if_pos hm, if_neg hcnd]
        obtain ⟨Δ', h1, h2, h3, h4, h5, h6, h7, h8⟩ := ih (roleStep dashIds s role)
        rw [hs'] at h1 h2 h3 h4 h7
        simp only [List.foldl_cons, hs']
        refine ⟨Δ', h1, h2, h3, ?_, h5, List.Sublist.cons _ h6, h7, h8⟩
        intro r hr
        obtain ⟨hty, hx⟩ := h4 r hr
        refine ⟨hty, fun x hxm => ?_⟩
        obtain ⟨hd, hc, role', hrole', hmem⟩ := hx x hxm
        exact ⟨hd, hc, role', by simp [hrole'], hmem⟩
    · have hs' : roleStep dashIds s role = s := by
        rw [roleStep, if_neg hm]
      obtain ⟨Δ', h1, h2, h3, h4, h5, h6, h7, h8⟩ := ih (roleStep dashIds s role)
      rw [hs'] at h1 h2 h3 h4 h7
      simp only [List.foldl_cons, hs']
      refine ⟨Δ', h1, h2, h3, ?_, h5, List.Sublist.cons _ h6, h7, h8⟩
      intro r hr
      obtain ⟨hty, hx⟩ := h4 r hr
      refine ⟨hty, fun x hxm => ?_⟩
      obtain ⟨hd, hc, role', hrole', hmem⟩ := hx x hxm
      exact ⟨hd, hc, role', by simp [hrole'], hmem⟩

/-! ## User pass -/

/-- Decomposition of a User-pass fold from any start state: every emitted
rule is the `userRule` of some processed entry whose id was uncovered at
the start; after the pass every processed entry's id is covered; emitted
rules are mutually disjoint; conditions follow entry order; identifiers
are distinct whenever the entry indices are. -/
lemma userFold_spec :
    ∀ (l : List (Nat × DashUser)) (s : ReconState), ∃ Δ : List AccessRule,
      (l.foldl userStep s).rules = s.rules ++ Δ ∧
      (l.foldl userStep s).covered = s.covered ++ Δ.flatMap (·.userIds) ∧
      (l.foldl userStep s).ctr = s.ctr ∧
      (∀ r ∈ Δ, ∃ iu ∈ l, r = userRule iu.1 iu.2 ∧ iu.2.userId ∉ s.covered) ∧
      (∀ iu ∈ l, iu.2.userId ∈ (l.foldl userStep s).covered) ∧
      List.Pairwise (fun r r' => ∀ x ∈ r.userIds, x ∉ r'.userIds) Δ ∧
      List.Sublist (Δ.map (·.condition)) (l.map (fun iu => iu.2.userName)) ∧
      (List.Pairwise (fun a b => a.1 ≠ b.1) l →
        List.Pairwise (fun r r' => r.id ≠ r'.id) Δ) := by
  intro l
  induction l with
  | nil =>
    intro s
    exact ⟨[], by simp, by simp, rfl, by simp, by simp, by simp, by simp, by simp⟩
  | cons iu l ih =>
    intro s
    by_cases hcov : s.covered.contains iu.2.userId
    · have hs' : userStep s iu = s := by rw [userStep, if_pos hcov]
      obtain ⟨Δ', h1, h2, h3, h4, h5, h6, h7, h8⟩ := ih (userStep s iu)
      rw [hs'] at h1 h2 h3 h4 h5
      simp only [List.foldl_cons, hs']
      refine ⟨Δ', h1, h2, h3, ?_, ?_, h6, List.Sublist.cons _ h7, ?_⟩
      · intro r hr
        obtain ⟨iu', hiu', hreq, hnc⟩ := h4 r hr
        exact ⟨iu', by simp [hiu'], hreq, hnc⟩
      · intro ju hju
        rcases List.mem_cons.mp hju with hju | hju
        · subst hju
          rw [h2]
          exact List.mem_append_left _ (by simpa using hcov)
        · exact h5 ju hju
      · intro hp
        exact h8 (List.pairwise_cons.mp hp).2
    · have hs' : userStep s iu =
        { rules := s.rules ++ [userRule iu.1 iu.2]
        , covered := s.covered ++ [iu.2.userId]
        , ctr := s.ctr } := by
        rw [userStep, if_neg hcov]
      obtain ⟨Δ', h1, h2, h3, h4, h5, h6, h7, h8⟩ := ih (userStep s iu)
      rw [hs'] at h1 h2 h3 h4 h5
      simp only [List.foldl_cons, hs']
      simp only at h1 h2 h3 h4 h5
      have hnotmem : iu.2.userId ∉ s.covered := by
        intro hmem
        exact hcov (by simpa using hmem)
      refine ⟨userRule iu.1 iu.2 :: Δ', ?_, ?_, h3, ?_, ?_, ?_, ?_, ?_⟩
      · rw [h1]; simp [List.append_assoc]
      · rw [h2]; simp [userRule, List.append_assoc]
      · intro r hr
        rcases List.mem_cons.mp hr with hr | hr
        · exact ⟨iu, by simp, hr, hnotmem⟩
        · obtain ⟨iu', hiu', hreq, hnc⟩ := h4 r hr
          refine ⟨iu', by simp [hiu'], hreq, ?_⟩
          intro hmem
          exact hnc (List.mem_append_left _ hmem)
      · intro ju hju
        rcases List.mem_cons.mp hju with hju | hju
        · subst hju
          rw [h2]
          exact List.mem_append_left _ (List.mem_append_right _ (by simp))
        · exact h5 ju hju
      · refine List.Pairwise.cons ?_ h6
        intro r' hr' x hx hx'
        obtain ⟨iu', _, hreq, hnc⟩ := h4 r' hr'
        have hxid : x = iu.2.userId := by simpa [userRule] using hx
        have hx'id : x = iu'.2.userId := by
          rw [hreq] at hx'
          simpa [userRule] using hx'
        apply hnc
        rw [← hx'id, hxid]
        exact List.mem_append_right _ (by simp)
      · exact List.Sublist.cons₂ _ h7
      · intro hp
        refine List.Pairwise.cons ?_ (h8 (List.pairwise_cons.mp hp).2)
        intro r' hr'
        obtain ⟨iu', hiu', hreq, _⟩ := h4 r' hr'
        have hne := (List.pairwise_cons.mp hp).1 iu' hiu'
        rw [hreq]
        show ctrId "user" (natStr iu.2.userId) iu.1 ≠
          ctrId "user" (natStr iu'.2.userId) iu'.1
        exact ctrId_inj_ctr hne

/-- If entry ids are pairwise distinct and an entry's id is uncovered at
the start of the User pass, the pass emits that entry's `userRule`. -/
lemma userFold_emits :
    ∀ (l : List (Nat × DashUser)) (s : ReconState),
      List.Pairwise (fun a b => a.2.userId ≠ b.2.userId) l →
      ∀ iu ∈ l, iu.2.userId ∉ s.covered →
        userRule iu.1 iu.2 ∈ (l.foldl userStep s).rules := by
  intro l
  induction l with
  | nil => intro s _ iu h; simp at h
  | cons ju l ih =>
    intro s hp iu hiu hnc
    rcases List.mem_cons.mp hiu with hiu | hiu
    · subst hiu
      have hcov : ¬ s.covered.contains iu.2.userId := by
        intro h; exact hnc (by simpa using h)
      have hs' : userStep s iu =
        { rules := s.rules ++ [userRule iu.1 iu.2]
        , covered := s.covered ++ [iu.2.userId]
        , ctr := s.ctr } := by
        rw [userStep, if_neg hcov]
      simp only [List.foldl_cons, hs']
      obtain ⟨Δ', h1, _⟩ := userFold_spec l
        { rules := s.rules ++ [userRule iu.1 iu.2]
        , covered := s.covered ++ [iu.2.userId]
        , ctr := s.ctr }
      rw [h1]
      exact List.mem_append_left _ (List.mem_append_right _ (by simp))
    · have hne := (List.pairwise_cons.mp hp).1 iu hiu
      simp only [List.foldl_cons]
      apply ih (userStep s ju) (List.pairwise_cons.mp hp).2 iu hiu
      rw [userStep]
      by_cases hcov : s.covered.contains ju.2.userId
      · rw [if_pos hcov]; exact hnc
      · rw [if_neg hcov]
        simp only [List.mem_append, List.mem_singleton]
        rintro (h | h)
        · exact hnc h
        · exact hne h.symm

/-! ## Derived facts about the passes -/

/-- Each rule of a Profile-pass suffix is the group rule of its own
condition, which is a key passing the emission test. -/
lemma profDelta_mem {dashIds : List Nat} {allUsers : List DirUser}
    {keys : List String} {Δ : List AccessRule}
    (h : Δ.map (fun r => (r.ruleType, r.condition, r.userIds)) =
      (keys.filter (profCond dashIds allUsers)).map
        (fun p => ("Profile", p, (profAssigned dashIds allUsers p).map (·.id))))
    {r : AccessRule} (hr : r ∈ Δ) :
    r.ruleType = "Profile" ∧ r.condition ∈ keys ∧
      profCond dashIds allUsers r.condition = true ∧
      r.userIds = (profAssigned dashIds allUsers r.condition).map (·.id) := by
  have hmem : (r.ruleType, r.condition, r.userIds) ∈
      Δ.map (fun r => (r.ruleType, r.condition, r.userIds)) :=
    List.mem_map_of_mem _ hr
  rw [h] at hmem
  obtain ⟨p, hp, heq⟩ := List.mem_map.mp hmem
  have h1 : "Profile" = r.ruleType := congrArg Prod.fst heq
  have h2 : p = r.condition := congrArg (fun t => t.2.1) heq
  have h3 : (profAssigned dashIds allUsers p).map (·.id) = r.userIds :=
    congrArg (fun t => t.2.2) heq
  subst h2
  exact ⟨h1.symm, List.mem_of_mem_filter hp, List.of_mem_filter hp, h3.symm⟩

/-- The Profile emission test holds exactly when the group is non-empty
and entirely assigned. -/
lemma profCond_true_iff (dashIds : List Nat) (allUsers : List DirUser)
    (p : String) :
    profCond dashIds allUsers p = true ↔
      (profGroup allUsers p ≠ [] ∧
        ∀ u ∈ profGroup allUsers p, dashIds.contains u.id = true) := by
  rw [profCond]
  simp only [Bool.and_eq_true, decide_eq_true_eq, beq_iff_eq]
  constructor
  · rintro ⟨hpos, hlen⟩
    have heq : profAssigned dashIds allUsers p = profGroup allUsers p :=
      List.Sublist.eq_of_length (List.filter_sublist _) hlen
    refine ⟨?_, List.filter_eq_self.mp heq⟩
    intro hnil
    rw [profAssigned, hnil] at hpos
    simp at hpos
  · rintro ⟨hnil, hall⟩
    have heq : profAssigned dashIds allUsers p = profGroup allUsers p :=
      List.filter_eq_self.mpr hall
    refine ⟨?_, by rw [heq]⟩
    rw [heq]
    exact List.length_pos.mpr hnil

/-- With globally distinct directory ids, the assigned groups of two
distinct profiles are disjoint. -/
lemma profAssigned_disjoint {allUsers : List DirUser}
    (hN : (allUsers.map (·.id)).Nodup) (dashIds : List Nat) {p q : String}
    (hpq : p ≠ q) (x : Nat)
    (hx : x ∈ (profAssigned dashIds allUsers p).map (·.id)) :
    x ∉ (profAssigned dashIds allUsers q).map (·.id) := by
  intro hy
  obtain ⟨u, hu, hux⟩ := List.mem_map.mp hx
  obtain ⟨v, hv, hvx⟩ := List.mem_map.mp hy
  have hu' : u ∈ allUsers ∧ u.profile = p := by
    have := List.mem_of_mem_filter hu
    rw [profGroup] at this
    exact ⟨List.mem_of_mem_filter this, by simpa using List.of_mem_filter this⟩
  have hv' : v ∈ allUsers ∧ v.profile = q := by
    have := List.mem_of_mem_filter hv
    rw [profGroup] at this
    exact ⟨List.mem_of_mem_filter this, by simpa using List.of_mem_filter this⟩
  have huv : u = v :=
    List.inj_on_of_nodup_map hN hu'.1 hv'.1 (by rw [hux, hvx])
  exact hpq (by rw [← hu'.2, huv, hv'.2])

/-- Transfer a pairwise relation on entries to their enumeration. -/
lemma enumFrom_pairwise_snd {α : Type} (R : α → α → Prop) :
    ∀ (l : List α) (n : Nat), l.Pairwise R →
      List.Pairwise (fun a b => R a.2 b.2) (List.enumFrom n l) := by
  intro l
  induction l with
  | nil => intro n _; simp [List.enumFrom]
  | cons a as ih =>
    intro n hp
    rw [List.enumFrom]
    refine List.Pairwise.cons ?_ (ih (n + 1) (List.pairwise_cons.mp hp).2)
    intro iu hiu
    exact (List.pairwise_cons.mp hp).1 iu.2 (mem_enumFrom_snd as (n + 1) iu hiu)

/-- `reconstruct` unfolded to the three folds. -/
lemma reconstruct_eq (dashUsers : List DashUser) (allUsers : List DirUser)
    (allRoles : List Role) (c0 : Nat) :
    reconstruct dashUsers allUsers allRoles c0 =
      (dashUsers.enum.foldl userStep
        (allRoles.foldl (roleStep (dashUsers.map (·.userId)))
          ((profileKeys allUsers).foldl
            (profileStep (dashUsers.map (·.userId)) allUsers)
            ⟨[], [], c0⟩))).rules := rfl

/-! ## C1: round-trip / coverage -/

/-- C1.  Round-trip / coverage: for every dashboard assignment list and
every directory snapshot, the id set collected on save from the rules
produced by reconstruction (the union of every emitted rule's `userIds`,
deduplicated) contains exactly the user ids of `dashboard.users`: flatten
after reconstruct is the assignment set. -/
theorem c1_roundtrip_coverage (dashUsers : List DashUser) (allUsers : List DirUser)
    (allRoles : List Role) (c0 : Nat) (x : Nat) :
    x ∈ handleSaveUsers (reconstruct dashUsers allUsers allRoles c0) ↔
      x ∈ dashUsers.map (·.userId) := by
  rw [handleSaveUsers, collectUserIds_mem]
  obtain ⟨Δp, hp1, hp2, hp3, hp4, hp5, hp6⟩ :=
    profileFold_spec (dashUsers.map (·.userId)) allUsers (profileKeys allUsers)
      ⟨[], [], c0⟩
  obtain ⟨Δr, hr1, hr2, hr3, hr4, hr5, hr6, hr7, hr8⟩ :=
    roleFold_spec (dashUsers.map (·.userId)) allRoles
      ((profileKeys allUsers).foldl
        (profileStep (dashUsers.map (·.userId)) allUsers) ⟨[], [], c0⟩)
  obtain ⟨Δu, hu1, hu2, hu3, hu4, hu5, hu6, hu7, hu8⟩ :=
    userFold_spec dashUsers.enum
      (allRoles.foldl (roleStep (dashUsers.map (·.userId)))
        ((profileKeys allUsers).foldl
          (profileStep (dashUsers.map (·.userId)) allUsers) ⟨[], [], c0⟩))
  constructor
  · rintro ⟨r, hr, hx⟩
    rw [reconstruct_eq, hu1, hr1, hp1] at hr
    simp only [List.mem_append] at hr
    rcases hr with ((hr | hr) | hr) | hr
    · simp at hr
    · obtain ⟨_, _, _, hids⟩ := profDelta_mem hp4 hr
      rw [hids] at hx
      obtain ⟨u, hu, hux⟩ := List.mem_map.mp hx
      have := List.of_mem_filter hu
      rw [← hux]
      simpa using this
    · exact ((hr4 r hr).2 x hx).1
    · obtain ⟨iu, hiu, hreq, _⟩ := hu4 r hr
      rw [hreq] at hx
      have hxid : x = iu.2.userId := by simpa [userRule] using hx
      rw [hxid]
      exact List.mem_map_of_mem _ (mem_enumFrom_snd dashUsers 0 iu hiu)
  · intro hx
    obtain ⟨e, he, hex⟩ := List.mem_map.mp hx
    obtain ⟨i, hi⟩ := mem_enumFrom_of_mem dashUsers 0 e he
    have hcov := hu5 (i, e) hi
    rw [hu2, hr2, hp2] at hcov
    simp only [List.mem_append] at hcov
    rcases hcov with ((hcov | hcov) | hcov) | hcov
    · simp at hcov
    · obtain ⟨r, hrm, hxr⟩ := List.mem_flatMap.mp hcov
      refine ⟨r, ?_, hex ▸ hxr⟩
      rw [reconstruct_eq, hu1, hr1, hp1]
      simp [hrm]
    · obtain ⟨r, hrm, hxr⟩ := List.mem_flatMap.mp hcov
      refine ⟨r, ?_, hex ▸ hxr⟩
      rw [reconstruct_eq, hu1, hr1, hp1]
      simp [hrm]
    · obtain ⟨r, hrm, hxr⟩ := List.mem_flatMap.mp hcov
      refine ⟨r, ?_, hex ▸ hxr⟩
      rw [reconstruct_eq, hu1, hr1, hp1]
      simp [hrm]

/-! ## C2: disjointness -/

/-- C2.  Disjointness: when user ids are pairwise distinct within
`allUsers` and within each role's member list, the `userIds` of the rules
emitted by one reconstruction (Profile pass, then Role pass, then User
pass) are pairwise disjoint. -/
theorem c2_disjointness (dashUsers : List DashUser) (allUsers : List DirUser)
    (allRoles : List Role) (c0 : Nat)
    (hN : (allUsers.map (·.id)).Nodup)
    (hR : ∀ role ∈ allRoles, (role.members.map (·.userId)).Nodup) :
    List.Pairwise (fun r r' => ∀ x ∈ r.userIds, x ∉ r'.userIds)
      (reconstruct dashUsers allUsers allRoles c0) := by
  obtain ⟨Δp, hp1, hp2, hp3, hp4, hp5, hp6⟩ :=
    profileFold_spec (dashUsers.map (·.userId)) allUsers (profileKeys allUsers)
      ⟨[], [], c0⟩
  obtain ⟨Δr, hr1, hr2, hr3, hr4, hr5, hr6, hr7, hr8⟩ :=
    roleFold_spec (dashUsers.map (·.userId)) allRoles
      ((profileKeys allUsers).foldl
        (profileStep (dashUsers.map (·.userId)) allUsers) ⟨[], [], c0⟩)
  obtain ⟨Δu, hu1, hu2, hu3, hu4, hu5, hu6, hu7, hu8⟩ :=
    userFold_spec dashUsers.enum
      (allRoles.foldl (roleStep (dashUsers.map (·.userId)))
        ((profileKeys allUsers).foldl
          (profileStep (dashUsers.map (·.userId)) allUsers) ⟨[], [], c0⟩))
  rw [reconstruct_eq, hu1, hr1, hp1]
  have hPairP : List.Pairwise (fun r r' => ∀ x ∈ r.userIds, x ∉ r'.userIds) Δp := by
    have hKnodup : ((profileKeys allUsers).filter
        (profCond (dashUsers.map (·.userId)) allUsers)).Nodup :=
      (profileKeys_nodup allUsers).filter _
    have hmapped : List.Pairwise (fun t t' => ∀ x ∈ t.2.2, x ∉ t'.2.2)
        (((profileKeys allUsers).filter
          (profCond (dashUsers.map (·.userId)) allUsers)).map
          (fun p => ("Profile", p,
            (profAssigned (dashUsers.map (·.userId)) allUsers p).map (·.id)))) := by
      rw [List.pairwise_map]
      exact hKnodup.imp (fun hne =>
        profAssigned_disjoint hN (dashUsers.map (·.userId)) hne)
    rw [← hp4, List.pairwise_map] at hmapped
    exact hmapped
  have hmemP : ∀ a ∈ Δp, ∀ x ∈ a.userIds,
      x ∈ ((profileKeys allUsers).foldl
        (profileStep (dashUsers.map (·.userId)) allUsers) ⟨[], [], c0⟩).covered := by
    intro a ha x hx
    rw [hp2]
    simp only [List.mem_append]
    exact Or.inr (List.mem_flatMap.mpr ⟨a, ha, hx⟩)
  have hmemPR : ∀ a ∈ Δp ++ Δr, ∀ x ∈ a.userIds,
      x ∈ (allRoles.foldl (roleStep (dashUsers.map (·.userId)))
        ((profileKeys allUsers).foldl
          (profileStep (dashUsers.map (·.userId)) allUsers) ⟨[], [], c0⟩)).covered := by
    intro a ha x hx
    rw [hr2]
    simp only [List.mem_append]
    rcases List.mem_append.mp ha with ha | ha
    · exact Or.inl (hmemP a ha x hx)
    · exact Or.inr (List.mem_flatMap.mpr ⟨a, ha, hx⟩)
  simp only [List.append_assoc]
  rw [List.pairwise_append]
  refine ⟨by simp, ?_, by simp⟩
  rw [List.pairwise_append]
  refine ⟨hPairP, ?_, ?_⟩
  · rw [List.pairwise_append]
    refine ⟨hr5, hu6, ?_⟩
    intro a ha b hb x hx hx'
    obtain ⟨iu, _, hbeq, hnc⟩ := hu4 b hb
    have hxid : x = iu.2.userId := by
      rw [hbeq] at hx'
      simpa [userRule] using hx'
    exact hnc (hxid ▸ hmemPR a (List.mem_append_right _ ha) x hx)
  · intro a ha b hb x hx hx'
    rcases List.mem_append.mp hb with hb | hb
    · exact ((hr4 b hb).2 x hx').2.1 (hmemP a ha x hx)
    · obtain ⟨iu, _, hbeq, hnc⟩ := hu4 b hb
      have hxid : x = iu.2.userId := by
        rw [hbeq] at hx'
        simpa [userRule] using hx'
      exact hnc (hxid ▸ hmemPR a (List.mem_append_left _ ha) x hx)

/-! ## C9: output ordering and identifier uniqueness -/

/-- Rank of a rule type in the emission order of the reconstruction. -/
def typeRank (t : String) : Nat :=
  if t == "Profile" then 0 else if t == "Role" then 1 else 2

lemma pairwise_of_mem {α : Type} {R : α → α → Prop} :
    ∀ l : List α, (∀ a ∈ l, ∀ b ∈ l, R a b) → List.Pairwise R l := by
  intro l
  induction l with
  | nil => intro _; simp
  | cons a as ih =>
    intro h
    refine List.Pairwise.cons ?_ (ih ?_)
    · intro b hb
      exact h a (by simp) b (by simp [hb])
    · intro x hx y hy
      exact h x (by simp [hx]) y (by simp [hy])

/-- C9.  Output ordering and identifier uniqueness: the reconstruction's
rule list is ordered Profile rules first, then Role rules, then User
rules; the Profile conditions follow the profile-group iteration order,
the Role conditions follow the `allRoles` order, the User conditions
follow the `dashboard.users` order; and all rule ids of one
reconstruction are pairwise distinct. -/
theorem c9_ordering_ids (dashUsers : List DashUser) (allUsers : List DirUser)
    (allRoles : List Role) (c0 : Nat) :
    List.Pairwise (fun r r' => typeRank r.ruleType ≤ typeRank r'.ruleType)
      (reconstruct dashUsers allUsers allRoles c0) ∧
    List.Sublist
      (((reconstruct dashUsers allUsers allRoles c0).filter
        (fun r => r.ruleType == "Profile")).map (·.condition))
      (profileKeys allUsers) ∧
    List.Sublist
      (((reconstruct dashUsers allUsers allRoles c0).filter
        (fun r => r.ruleType == "Role")).map (·.condition))
      (allRoles.map (·.roleName)) ∧
    List.Sublist
      (((reconstruct dashUsers allUsers allRoles c0).filter
        (fun r => r.ruleType == "User")).map (·.condition))
      (dashUsers.map (·.userName)) ∧
    ((reconstruct dashUsers allUsers allRoles c0).map (·.id)).Nodup := by
  obtain ⟨Δp, hp1, hp2, hp3, hp4, hp5, hp6⟩ :=
    profileFold_spec (dashUsers.map (·.userId)) allUsers (profileKeys allUsers)
      ⟨[], [], c0⟩
  obtain ⟨Δr, hr1, hr2, hr3, hr4, hr5, hr6, hr7, hr8⟩ :=
    roleFold_spec (dashUsers.map (·.userId)) allRoles
      ((profileKeys allUsers).foldl
        (profileStep (dashUsers.map (·.userId)) allUsers) ⟨[], [], c0⟩)
  obtain ⟨Δu, hu1, hu2, hu3, hu4, hu5, hu6, hu7, hu8⟩ :=
    userFold_spec dashUsers.enum
      (allRoles.foldl (roleStep (dashUsers.map (·.userId)))
        ((profileKeys allUsers).foldl
          (profileStep (dashUsers.map (·.userId)) allUsers) ⟨[], [], c0⟩))
  have hout : reconstruct dashUsers allUsers allRoles c0 = Δp ++ (Δr ++ Δu) := by
    rw [reconstruct_eq, hu1, hr1, hp1]
    simp [List.append_assoc]
  have hTyP : ∀ r ∈ Δp, r.ruleType = "Profile" :=
    fun r hr => (profDelta_mem hp4 hr).1
  have hTyR : ∀ r ∈ Δr, r.ruleType = "Role" := fun r hr => (hr4 r hr).1
  have hTyU : ∀ r ∈ Δu, r.ruleType = "User" := by
    intro r hr
    obtain ⟨iu, _, hreq, _⟩ := hu4 r hr
    rw [hreq]
    rfl
  have hcondP : Δp.map (·.condition) =
      (profileKeys allUsers).filter
        (profCond (dashUsers.map (·.userId)) allUsers) := by
    have hmm := congrArg (List.map (fun t : String × String × List Nat => t.2.1)) hp4
    rw [List.map_map, List.map_map] at hmm
    have e1 : ((fun t : String × String × List Nat => t.2.1) ∘
        (fun r : AccessRule => (r.ruleType, r.condition, r.userIds))) =
        fun r : AccessRule => r.condition := rfl
    have e2 : ((fun t : String × String × List Nat => t.2.1) ∘
        (fun p : String => (("Profile" : String), p,
          (profAssigned (dashUsers.map (·.userId)) allUsers p).map (·.id)))) =
        fun p : String => p := rfl
    rw [e1, e2] at hmm
    simpa using hmm
  have hidP : ∀ r ∈ Δp, ∃ nm c, r.id = ctrId "profile" nm c := by
    intro r hr
    obtain ⟨c, _, _, hid⟩ := hp5 r hr
    exact ⟨r.condition, c, hid⟩
  have hidR : ∀ r ∈ Δr, ∃ nm c, r.id = ctrId "role" nm c := by
    intro r hr
    obtain ⟨nm, c, _, _, hid⟩ := hr7 r hr
    exact ⟨nm, c, hid⟩
  have hidU : ∀ r ∈ Δu, ∃ nm c, r.id = ctrId "user" nm c := by
    intro r hr
    obtain ⟨iu, _, hreq, _⟩ := hu4 r hr
    exact ⟨natStr iu.2.userId, iu.1, by rw [hreq]; rfl⟩
  refine ⟨?_, ?_, ?_, ?_, ?_⟩
  · rw [hout, List.pairwise_append]
    refine ⟨?_, ?_, ?_⟩
    · apply pairwise_of_mem
      intro a ha b hb
      rw [hTyP a ha, hTyP b hb]
    · rw [List.pairwise_append]
      refine ⟨?_, ?_, ?_⟩
      · apply pairwise_of_mem
        intro a ha b hb
        rw [hTyR a ha, hTyR b hb]
      · apply pairwise_of_mem
        intro a ha b hb
        rw [hTyU a ha, hTyU b hb]
      · intro a ha b hb
        rw [hTyR a ha, hTyU b hb]
        decide
    · intro a ha b hb
      rw [hTyP a ha]
      rcases List.mem_append.mp hb with hb | hb
      · rw [hTyR b hb]; decide
      · rw [hTyU b hb]; decide
  · rw [hout]
    have hfil : (Δp ++ (Δr ++ Δu)).filter (fun r => r.ruleType == "Profile") = Δp := by
      have e1 : Δp.filter (fun r => r.ruleType == "Profile") = Δp :=
        List.filter_eq_self.mpr (fun r hr => by simp [hTyP r hr])
      have e2 : Δr.filter (fun r => r.ruleType == "Profile") = [] :=
        List.filter_eq_nil_iff.mpr (fun r hr => by simp [hTyR r hr])
      have e3 : Δu.filter (fun r => r.ruleType == "Profile") = [] :=
        List.filter_eq_nil_iff.mpr (fun r hr => by simp [hTyU r hr])
      rw [List.filter_append, List.filter_append, e1, e2, e3]
      simp
    rw [hfil, hcondP]
    exact List.filter_sublist _
  · rw [hout]
    have hfil : (Δp ++ (Δr ++ Δu)).filter (fun r => r.ruleType == "Role") = Δr := by
      have e1 : Δp.filter (fun r => r.ruleType == "Role") = [] :=
        List.filter_eq_nil_iff.mpr (fun r hr => by simp [hTyP r hr])
      have e2 : Δr.filter (fun r => r.ruleType == "Role") = Δr :=
        List.filter_eq_self.mpr (fun r hr => by simp [hTyR r hr])
      have e3 : Δu.filter (fun r => r.ruleType == "Role") = [] :=
        List.filter_eq_nil_iff.mpr (fun r hr => by simp [hTyU r hr])
      rw [List.filter_append, List.filter_append, e1, e2, e3]
      simp
    rw [hfil]
    exact hr6
  · rw [hout]
    have hfil : (Δp ++ (Δr ++ Δu)).filter (fun r => r.ruleType == "User") = Δu := by
      have e1 : Δp.filter (fun r => r.ruleType == "User") = [] :=
        List.filter_eq_nil_iff.mpr (fun r hr => by simp [hTyP r hr])
      have e2 : Δr.filter (fun r => r.ruleType == "User") = [] :=
        List.filter_eq_nil_iff.mpr (fun r hr => by simp [hTyR r hr])
      have e3 : Δu.filter (fun r => r.ruleType == "User") = Δu :=
        List.filter_eq_self.mpr (fun r hr => by simp [hTyU r hr])
      rw [List.filter_append, List.filter_append, e1, e2, e3]
      simp
    rw [hfil]
    have hthis := hu7
    have henum : dashUsers.enum.map (fun iu => iu.2.userName) =
        dashUsers.map (·.userName) := enumFrom_map_userName dashUsers 0
    rw [henum] at hthis
    exact hthis
  · rw [hout]
    have hPid : List.Pairwise (fun r r' => r.id ≠ r'.id) (Δp ++ (Δr ++ Δu)) := by
      rw [List.pairwise_append]
      refine ⟨hp6, ?_, ?_⟩
      · rw [List.pairwise_append]
        refine ⟨hr8, hu8 (enumFrom_pairwise_fst dashUsers 0), ?_⟩
        · intro a ha b hb
          obtain ⟨nma, ca, hida⟩ := hidR a ha
          obtain ⟨nmb, cb, hidb⟩ := hidU b hb
          rw [hida, hidb]
          exact ctrId_cat_ne (by decide) (by decide) (by decide)
      · intro a ha b hb
        obtain ⟨nma, ca, hida⟩ := hidP a ha
        rcases List.mem_append.mp hb with hb | hb
        · obtain ⟨nmb, cb, hidb⟩ := hidR b hb
          rw [hida, hidb]
          exact ctrId_cat_ne (by decide) (by decide) (by decide)
        · obtain ⟨nmb, cb, hidb⟩ := hidU b hb
          rw [hida, hidb]
          exact ctrId_cat_ne (by decide) (by decide) (by decide)
    exact List.Pairwise.map _ (fun a b h => h) hPid

/-! ## C6: the Profile pass emission condition -/

/-- C6.  For every profile name with a non-empty group: reconstruction
emits a Profile rule for it covering exactly the group iff every group
member is assigned; with only a proper subset assigned there is no Profile
rule for that name at all, and (with distinct directory ids) the group's
members are still uncovered when the Profile pass ends. -/
theorem c6_profile_pass (dashUsers : List DashUser) (allUsers : List DirUser)
    (allRoles : List Role) (c0 : Nat) (p : String)
    (htot : profGroup allUsers p ≠ []) :
    ((∃ r ∈ reconstruct dashUsers allUsers allRoles c0,
        r.ruleType = "Profile" ∧ r.condition = p ∧
        r.userIds = (profGroup allUsers p).map (·.id)) ↔
      ∀ u ∈ profGroup allUsers p, u.id ∈ dashUsers.map (·.userId)) ∧
    ((¬ ∀ u ∈ profGroup allUsers p, u.id ∈ dashUsers.map (·.userId)) →
      (∀ r ∈ reconstruct dashUsers allUsers allRoles c0,
        ¬ (r.ruleType = "Profile" ∧ r.condition = p)) ∧
      ((allUsers.map (·.id)).Nodup →
        ∀ u ∈ profGroup allUsers p,
          u.id ∉ (profilePhase (dashUsers.map (·.userId)) allUsers
            ⟨[], [], c0⟩).covered)) := by
  obtain ⟨Δp, hp1, hp2, hp3, hp4, hp5, hp6⟩ :=
    profileFold_spec (dashUsers.map (·.userId)) allUsers (profileKeys allUsers)
      ⟨[], [], c0⟩
  obtain ⟨Δr, hr1, hr2, hr3, hr4, hr5, hr6, hr7, hr8⟩ :=
    roleFold_spec (dashUsers.map (·.userId)) allRoles
      ((profileKeys allUsers).foldl
        (profileStep (dashUsers.map (·.userId)) allUsers) ⟨[], [], c0⟩)
  obtain ⟨Δu, hu1, hu2, hu3, hu4, hu5, hu6, hu7, hu8⟩ :=
    userFold_spec dashUsers.enum
      (allRoles.foldl (roleStep (dashUsers.map (·.userId)))
        ((profileKeys allUsers).foldl
          (profileStep (dashUsers.map (·.userId)) allUsers) ⟨[], [], c0⟩))
  have hout : reconstruct dashUsers allUsers allRoles c0 = Δp ++ (Δr ++ Δu) := by
    rw [reconstruct_eq, hu1, hr1, hp1]
    simp [List.append_assoc]
  have hsplit : ∀ r ∈ reconstruct dashUsers allUsers allRoles c0,
      r.ruleType = "Profile" → r ∈ Δp := by
    intro r hr hty
    rw [hout] at hr
    simp only [List.mem_append] at hr
    rcases hr with hr | hr | hr
    · exact hr
    · have hrole := (hr4 r hr).1
      rw [hrole] at hty
      exact absurd hty (by decide)
    · obtain ⟨iu, _, hreq, _⟩ := hu4 r hr
      have huser : (userRule iu.1 iu.2).ruleType = "User" := rfl
      rw [hreq, huser] at hty
      exact absurd hty (by decide)
  constructor
  · constructor
    · rintro ⟨r, hr, hty, hcond, _⟩
      have hrp := hsplit r hr hty
      obtain ⟨_, _, hpc, _⟩ := profDelta_mem hp4 hrp
      rw [hcond] at hpc
      obtain ⟨_, hall⟩ := (profCond_true_iff _ _ _).mp hpc
      intro u hu
      simpa using hall u hu
    · intro hall
      have hpc : profCond (dashUsers.map (·.userId)) allUsers p = true :=
        (profCond_true_iff _ _ _).mpr
          ⟨htot, fun u hu => by simpa using hall u hu⟩
      have hkey : p ∈ profileKeys allUsers := by
        obtain ⟨u, hu⟩ := List.exists_mem_of_ne_nil _ htot
        have hup : u.profile = p := by simpa using List.of_mem_filter hu
        rw [profileKeys_mem]
        exact List.mem_map.mpr ⟨u, List.mem_of_mem_filter hu, hup⟩
      have hmemf : p ∈ (profileKeys allUsers).filter
          (profCond (dashUsers.map (·.userId)) allUsers) :=
        List.mem_filter.mpr ⟨hkey, hpc⟩
      have hmapped := List.mem_map_of_mem
        (fun p => (("Profile" : String), p,
          (profAssigned (dashUsers.map (·.userId)) allUsers p).map (·.id))) hmemf
      rw [← hp4] at hmapped
      obtain ⟨r, hrΔ, heq⟩ := List.mem_map.mp hmapped
      have hassigned : profAssigned (dashUsers.map (·.userId)) allUsers p =
          profGroup allUsers p :=
        List.filter_eq_self.mpr (fun u hu => by simpa using hall u hu)
      have heq' : (("Profile" : String), p,
          (profAssigned (dashUsers.map (·.userId)) allUsers p).map (·.id)) =
          (r.ruleType, r.condition, r.userIds) := heq.symm
      injection heq' with h1 h23
      injection h23 with h2 h3
      refine ⟨r, by rw [hout]; exact List.mem_append_left _ hrΔ, h1.symm, h2.symm, ?_⟩
      rw [← h3, hassigned]
  · intro hnall
    constructor
    · rintro r hr ⟨hty, hcond⟩
      have hrp := hsplit r hr hty
      obtain ⟨_, _, hpc, _⟩ := profDelta_mem hp4 hrp
      rw [hcond] at hpc
      obtain ⟨_, hall⟩ := (profCond_true_iff _ _ _).mp hpc
      exact hnall (fun u hu => by simpa using hall u hu)
    · intro hN u hu hmem
      have hmem' : u.id ∈ ((profileKeys allUsers).foldl
          (profileStep (dashUsers.map (·.userId)) allUsers)
          ⟨[], [], c0⟩).covered := hmem
      rw [hp2] at hmem'
      simp only [List.mem_append] at hmem'
      rcases hmem' with hmem' | hmem'
      · simp at hmem'
      · obtain ⟨r, hrΔ, hxr⟩ := List.mem_flatMap.mp hmem'
        obtain ⟨_, _, hpc, hids⟩ := profDelta_mem hp4 hrΔ
        rw [hids] at hxr
        obtain ⟨v, hv, hvx⟩ := List.mem_map.mp hxr
        have hvg := List.mem_of_mem_filter hv
        have hvq : v.profile = r.condition := by
          simpa using List.of_mem_filter hvg
        have hup : u.profile = p := by simpa using List.of_mem_filter hu
        have huv : u = v := List.inj_on_of_nodup_map hN
          (List.mem_of_mem_filter hu) (List.mem_of_mem_filter hvg) hvx.symm
        have hqp : r.condition = p := by rw [← hvq, ← huv, hup]
        rw [hqp] at hpc
        obtain ⟨_, hall⟩ := (profCond_true_iff _ _ _).mp hpc
        exact hnall (fun w hw => by simpa using hall w hw)

/-- Witness for C6 at a concrete fully assigned profile group. -/
theorem c6_profile_pass_witness :
    ∃ r ∈ reconstruct [⟨1, "A", "Ops"⟩, ⟨2, "B", "Ops"⟩]
        [⟨1, "A", "Ops"⟩, ⟨2, "B", "Ops"⟩] [] 0,
      r.ruleType = "Profile" ∧ r.condition = "Ops" ∧
      r.userIds = (profGroup [⟨1, "A", "Ops"⟩, ⟨2, "B", "Ops"⟩] "Ops").map (·.id) :=
  (c6_profile_pass [⟨1, "A", "Ops"⟩, ⟨2, "B", "Ops"⟩]
    [⟨1, "A", "Ops"⟩, ⟨2, "B", "Ops"⟩] [] 0 "Ops" (by decide)).1.mpr (by decide)

/-! ## C7: the Role pass emission condition -/

/-- `assignedFromRole` filters the assignment test over
`unassignedRoleMembers`. -/
lemma afr_eq_filter (dashIds covered : List Nat) (role : Role) :
    assignedFromRole dashIds covered role =
      (unassignedMembers covered role).filter (fun uid => dashIds.contains uid) := by
  rw [unassignedMembers, List.filter_filter]
  rfl

/-- C7.  One Role-pass step, at any covered set: it emits a rule iff the
role's not-yet-covered members (`unassignedRoleMembers`) are non-empty and
all assigned, and the emitted rule covers exactly
`unassignedRoleMembers` (never a member already covered); a role with zero
members is skipped and partial coverage yields no rule. -/
theorem c7_role_pass (dashIds : List Nat) (s : ReconState) (role : Role) :
    (((roleStep dashIds s role).rules ≠ s.rules) ↔
      (unassignedMembers s.covered role ≠ [] ∧
        ∀ x ∈ unassignedMembers s.covered role, x ∈ dashIds)) ∧
    (unassignedMembers s.covered role ≠ [] →
      (∀ x ∈ unassignedMembers s.covered role, x ∈ dashIds) →
      (roleStep dashIds s role).rules =
        s.rules ++ [roleRule dashIds s.covered role s.ctr] ∧
      (roleRule dashIds s.covered role s.ctr).ruleType = "Role" ∧
      (roleRule dashIds s.covered role s.ctr).condition = role.roleName ∧
      (roleRule dashIds s.covered role s.ctr).userIds =
        unassignedMembers s.covered role) := by
  have hmem_nil : role.members = [] → unassignedMembers s.covered role = [] := by
    intro h
    rw [unassignedMembers, h]
    rfl
  have hkey : (unassignedMembers s.covered role ≠ [] ∧
      ∀ x ∈ unassignedMembers s.covered role, x ∈ dashIds) ↔
      (0 < role.members.length ∧
        (0 < (unassignedMembers s.covered role).length ∧
          (assignedFromRole dashIds s.covered role).length =
            (unassignedMembers s.covered role).length)) := by
    constructor
    · rintro ⟨hne, hall⟩
      have hfe : (unassignedMembers s.covered role).filter
          (fun uid => dashIds.contains uid) = unassignedMembers s.covered role :=
        List.filter_eq_self.mpr (fun x hx => by simpa using hall x hx)
      refine ⟨?_, List.length_pos.mpr hne, by rw [afr_eq_filter, hfe]⟩
      rcases role.members.eq_nil_or_concat with h | _
      · exact absurd (hmem_nil h) hne
      · exact List.length_pos.mpr (fun h => hne (hmem_nil h))
    · rintro ⟨_, hpos, hlen⟩
      refine ⟨List.length_pos.mp hpos, ?_⟩
      have hfe : (unassignedMembers s.covered role).filter
          (fun uid => dashIds.contains uid) = unassignedMembers s.covered role := by
        apply List.Sublist.eq_of_length (List.filter_sublist _)
        rw [← afr_eq_filter]
        exact hlen
      intro x hx
      have := List.filter_eq_self.mp hfe x hx
      simpa using this
  constructor
  · constructor
    · intro hne
      rw [hkey]
      by_cases hm : 0 < role.members.length
      · by_cases hcnd : 0 < (unassignedMembers s.covered role).length ∧
            (assignedFromRole dashIds s.covered role).length =
              (unassignedMembers s.covered role).length
        · exact ⟨hm, hcnd⟩
        · exact absurd (by rw [roleStep, if_pos hm, if_neg hcnd]) hne
      · exact absurd (by rw [roleStep, if_neg hm]) hne
    · intro hrhs
      obtain ⟨hm, hcnd⟩ := hkey.mp hrhs
      rw [roleStep, if_pos hm, if_pos hcnd]
      intro hcontra
      have hlen := congrArg List.length hcontra
      simp at hlen
  · intro hne hall
    obtain ⟨hm, hcnd⟩ := hkey.mp ⟨hne, hall⟩
    have hfe : (unassignedMembers s.covered role).filter
        (fun uid => dashIds.contains uid) = unassignedMembers s.covered role :=
      List.filter_eq_self.mpr (fun x hx => by simpa using hall x hx)
    refine ⟨by rw [roleStep, if_pos hm, if_pos hcnd], rfl, rfl, ?_⟩
    show assignedFromRole dashIds s.covered role = unassignedMembers s.covered role
    rw [afr_eq_filter, hfe]

/-- Witness for C7: a role whose uncovered members are all assigned. -/
theorem c7_role_pass_witness :
    (roleStep [1, 2] ⟨[], [1], 0⟩ ⟨5, "Engineers", "T", [⟨1⟩, ⟨2⟩]⟩).rules =
      [] ++ [roleRule [1, 2] [1] ⟨5, "Engineers", "T", [⟨1⟩, ⟨2⟩]⟩ 0] ∧
    (roleRule [1, 2] [1] ⟨5, "Engineers", "T", [⟨1⟩, ⟨2⟩]⟩ 0).ruleType = "Role" ∧
    (roleRule [1, 2] [1] ⟨5, "Engineers", "T", [⟨1⟩, ⟨2⟩]⟩ 0).condition = "Engineers" ∧
    (roleRule [1, 2] [1] ⟨5, "Engineers", "T", [⟨1⟩, ⟨2⟩]⟩ 0).userIds =
      unassignedMembers [1] ⟨5, "Engineers", "T", [⟨1⟩, ⟨2⟩]⟩ :=
  (c7_role_pass [1, 2] ⟨[], [1], 0⟩ ⟨5, "Engineers", "T", [⟨1⟩, ⟨2⟩]⟩).2
    (by decide) (by decide)

/-! ## C3: orphan handling -/

/-- Concrete dashboard assignment whose single user id is absent from the
(empty) directory snapshot. -/
def c3dashUsers : List DashUser := [⟨99, "Alice", "Eng"⟩]

/-- Counterexample to C3 as stated: with `u99` absent from `allUsers`,
reconstruction does emit a rule with `userIds = {99}` without failing, but
its condition is the stored `userName` of the `dashboard.users` entry
("Alice"), not the synthesized placeholder "User-99". -/
theorem c3_counterexample :
    (99 ∉ ([] : List DirUser).map (·.id)) ∧
    (∃ r ∈ reconstruct c3dashUsers [] [] 0, r.userIds = [99]) ∧
    (∀ r ∈ reconstruct c3dashUsers [] [] 0,
      r.condition ≠ "User-99" ∧ r.condition = "Alice") := by decide

/-- C3 (amended).  For an assignment entry whose user id is absent from
`allUsers` and from every role's member list (and with distinct assignment
ids), reconstruction does not fail and emits an individual User rule with
`userIds = {id}` whose condition is the entry's stored `userName`; the
placeholder display name `User-<id>` is synthesized only by
`getRuleUsers` when resolving a rule's members against the stale
directory snapshot. -/
theorem c3_amended (dashUsers : List DashUser) (allUsers : List DirUser)
    (allRoles : List Role) (c0 : Nat) (e : DashUser)
    (hmem : e ∈ dashUsers)
    (hnodup : (dashUsers.map (·.userId)).Nodup)
    (horphanU : e.userId ∉ allUsers.map (·.id))
    (horphanR : ∀ role ∈ allRoles, e.userId ∉ role.members.map (·.userId)) :
    (∃ r ∈ reconstruct dashUsers allUsers allRoles c0,
      r.ruleType = "User" ∧ r.condition = e.userName ∧ r.userIds = [e.userId]) ∧
    (∀ rule : AccessRule, rule.userIds = [e.userId] →
      (getRuleUsers allUsers rule).map (·.userName) =
        ["User-" ++ natStr e.userId]) := by
  obtain ⟨Δp, hp1, hp2, hp3, hp4, hp5, hp6⟩ :=
    profileFold_spec (dashUsers.map (·.userId)) allUsers (profileKeys allUsers)
      ⟨[], [], c0⟩
  obtain ⟨Δr, hr1, hr2, hr3, hr4, hr5, hr6, hr7, hr8⟩ :=
    roleFold_spec (dashUsers.map (·.userId)) allRoles
      ((profileKeys allUsers).foldl
        (profileStep (dashUsers.map (·.userId)) allUsers) ⟨[], [], c0⟩)
  have horph2 : e.userId ∉
      (allRoles.foldl (roleStep (dashUsers.map (·.userId)))
        ((profileKeys allUsers).foldl
          (profileStep (dashUsers.map (·.userId)) allUsers)
          ⟨[], [], c0⟩)).covered := by
    intro hmem'
    rw [hr2, hp2] at hmem'
    simp only [List.mem_append] at hmem'
    rcases hmem' with (hmem' | hmem') | hmem'
    · simp at hmem'
    · obtain ⟨r, hrΔ, hx⟩ := List.mem_flatMap.mp hmem'
      obtain ⟨_, _, _, hids⟩ := profDelta_mem hp4 hrΔ
      rw [hids] at hx
      obtain ⟨u, hu, hux⟩ := List.mem_map.mp hx
      have hua : u ∈ allUsers :=
        List.mem_of_mem_filter (List.mem_of_mem_filter hu)
      exact horphanU (List.mem_map.mpr ⟨u, hua, hux⟩)
    · obtain ⟨r, hrΔ, hx⟩ := List.mem_flatMap.mp hmem'
      obtain ⟨role, hrole, hmemrole⟩ := ((hr4 r hrΔ).2 _ hx).2.2
      exact horphanR role hrole hmemrole
  have hpair : List.Pairwise (fun a b => a.2.userId ≠ b.2.userId) dashUsers.enum :=
    enumFrom_pairwise_snd (fun a b => a.userId ≠ b.userId) dashUsers 0
      (List.pairwise_map.mp hnodup)
  obtain ⟨i, hi⟩ := mem_enumFrom_of_mem dashUsers 0 e hmem
  have hrule := userFold_emits dashUsers.enum
    (allRoles.foldl (roleStep (dashUsers.map (·.userId)))
      ((profileKeys allUsers).foldl
        (profileStep (dashUsers.map (·.userId)) allUsers) ⟨[], [], c0⟩))
    hpair (i, e) hi horph2
  constructor
  · exact ⟨userRule i e, by rw [reconstruct_eq]; exact hrule, rfl, rfl, rfl⟩
  · intro rule hids
    have hfind : allUsers.find? (fun u => u.id == e.userId) = none := by
      rw [List.find?_eq_none]
      intro u hu hbeq
      exact horphanU (List.mem_map.mpr ⟨u, hu, by simpa using hbeq⟩)
    simp [getRuleUsers, hids, hfind]

/-- Witness for the amended C3 at a concrete stale snapshot. -/
theorem c3_amended_witness :
    (∃ r ∈ reconstruct c3dashUsers [] [] 0,
      r.ruleType = "User" ∧ r.condition = "Alice" ∧ r.userIds = [99]) ∧
    (getRuleUsers [] ⟨"x", "Role", "c", "d", [99]⟩).map (·.userName) =
      ["User-" ++ natStr 99] :=
  have h := c3_amended c3dashUsers [] [] 0 ⟨99, "Alice", "Eng"⟩
    (by decide) (by decide) (by decide) (by decide)
  ⟨h.1, h.2 ⟨"x", "Role", "c", "d", [99]⟩ rfl⟩

/-! ## C4: falsy profile names -/

/-- Concrete snapshot whose single user carries the empty profile name. -/
def c4allUsers : List DirUser := [⟨1, "A", ""⟩]

/-- The same user assigned to the dashboard. -/
def c4dashUsers : List DashUser := [⟨1, "A", ""⟩]

/-- Counterexample to C4 as stated: with every empty-profile user
assigned, reconstruction emits a Profile rule whose condition is the empty
(falsy) profile name, and no individual User rule at all. -/
theorem c4_counterexample :
    (reconstruct c4dashUsers c4allUsers [] 0).map
      (fun r => (r.ruleType, r.condition)) = [("Profile", "")] ∧
    (∀ r ∈ reconstruct c4dashUsers c4allUsers [] 0, r.ruleType ≠ "User") := by
  decide

/-- C4 (amended).  The falsy-profile exclusion belongs to the Add-Rule
modal's profile list, not to reconstruction: `availableProfiles` contains
exactly the non-empty profile names occurring in `allUsers`, while the
reconstruction's Profile pass groups empty profile names like any
other. -/
theorem c4_amended (allUsers : List DirUser) (p : String) :
    p ∈ availableProfiles allUsers ↔ p ≠ "" ∧ p ∈ allUsers.map (·.profile) := by
  rw [availableProfiles, List.mem_filter, profileKeys_mem]
  constructor
  · rintro ⟨hm, hp⟩
    exact ⟨by simpa using hp, hm⟩
  · rintro ⟨hne, hm⟩
    exact ⟨hm, by simpa using hne⟩

/-! ## C5: add-rule deduplication -/

/-- Decomposition of the add-rule profiles fold: one rule per selected
profile that still has uncovered members, covering exactly those. -/
lemma addProfileFold_spec (allUsers : List DirUser) (existing : List Nat) :
    ∀ (sel : List String) (acc : List AccessRule × Nat), ∃ Δ : List AccessRule,
      (sel.foldl (addProfileStep allUsers existing) acc).1 = acc.1 ++ Δ ∧
      Δ.map (fun r => (r.ruleType, r.condition, r.userIds)) =
        (sel.filter
          (fun p => 0 < (uncoveredProfileUsers allUsers existing p).length)).map
          (fun p => ("Profile", p,
            (uncoveredProfileUsers allUsers existing p).map (·.id))) := by
  intro sel
  induction sel with
  | nil => intro acc; exact ⟨[], by simp, by simp⟩
  | cons p ps ih =>
    intro acc
    by_cases hc : 0 < (uncoveredProfileUsers allUsers existing p).length
    · have hs' : addProfileStep allUsers existing acc p =
        (acc.1 ++ [addProfRule allUsers existing p acc.2], acc.2 + 1) := by
        rw [addProfileStep, if_pos hc]
      obtain ⟨Δ', h1, h2⟩ := ih (addProfileStep allUsers existing acc p)
      rw [hs'] at h1
      simp only [List.foldl_cons, hs']
      simp only at h1
      refine ⟨addProfRule allUsers existing p acc.2 :: Δ', ?_, ?_⟩
      · rw [h1]; simp [List.append_assoc]
      · have hcd : decide
            (0 < (uncoveredProfileUsers allUsers existing p).length) = true :=
          decide_eq_true hc
        simp only [List.filter_cons, hcd, List.map_cons, if_true]
        exact congrArg (List.cons _) h2
    · have hs' : addProfileStep allUsers existing acc p = acc := by
        rw [addProfileStep, if_neg hc]
      obtain ⟨Δ', h1, h2⟩ := ih (addProfileStep allUsers existing acc p)
      rw [hs'] at h1
      simp only [List.foldl_cons, hs']
      refine ⟨Δ', h1, ?_⟩
      have hcd : decide
          (0 < (uncoveredProfileUsers allUsers existing p).length) = false :=
        decide_eq_false hc
      simp only [List.filter_cons, hcd, if_false]
      exact h2

/-- The rule summary produced by one selected role id in the add-rule
roles tab: `none` when the id does not resolve or every member is already
covered. -/
def addRoleProj (allRoles : List Role) (existing : List Nat) (rid : Nat) :
    Option (String × String × List Nat) :=
  match allRoles.find? (fun r => r.id == rid) with
  | some role =>
      if 0 < (uncoveredRoleMembers existing role).length then
        some ("Role", role.roleName,
          (uncoveredRoleMembers existing role).map (·.userId))
      else none
  | none => none

/-- The rule summary produced by one selected user id in the add-rule
users tab: `none` only when the id does not resolve in `allUsers`. -/
def addUserProj (allUsers : List DirUser) (uid : Nat) :
    Option (String × String × List Nat) :=
  match allUsers.find? (fun u => u.id == uid) with
  | some u => some ("User", u.userName, [uid])
  | none => none

/-- Decomposition of the add-rule roles fold. -/
lemma addRoleFold_spec (allRoles : List Role) (existing : List Nat) :
    ∀ (sel : List Nat) (acc : List AccessRule × Nat), ∃ Δ : List AccessRule,
      (sel.foldl (addRoleStep allRoles existing) acc).1 = acc.1 ++ Δ ∧
      Δ.map (fun r => (r.ruleType, r.condition, r.userIds)) =
        sel.filterMap (addRoleProj allRoles existing) := by
  intro sel
  induction sel with
  | nil => intro acc; exact ⟨[], by simp, by simp⟩
  | cons rid ps ih =>
    intro acc
    rcases hfind : allRoles.find? (fun r => r.id == rid) with _ | role
    · have hs' : addRoleStep allRoles existing acc rid = acc := by
        rw [addRoleStep, hfind]
      obtain ⟨Δ', h1, h2⟩ := ih (addRoleStep allRoles existing acc rid)
      rw [hs'] at h1
      simp only [List.foldl_cons, hs']
      refine ⟨Δ', h1, ?_⟩
      have hf : addRoleProj allRoles existing rid = none := by
        rw [addRoleProj, hfind]
      exact h2.trans (List.filterMap_cons_none hf).symm
    · by_cases hc : 0 < (uncoveredRoleMembers existing role).length
      · have hs' : addRoleStep allRoles existing acc rid =
          (acc.1 ++ [addRoleRule existing role rid acc.2], acc.2 + 1) := by
          rw [addRoleStep, hfind]
          exact if_pos hc
        obtain ⟨Δ', h1, h2⟩ := ih (addRoleStep allRoles existing acc rid)
        rw [hs'] at h1
        simp only [List.foldl_cons, hs']
        simp only at h1
        refine ⟨addRoleRule existing role rid acc.2 :: Δ', ?_, ?_⟩
        · rw [h1]; simp [List.append_assoc]
        · have hf : addRoleProj allRoles existing rid =
            some ("Role", role.roleName,
              (uncoveredRoleMembers existing role).map (·.userId)) := by
            rw [addRoleProj, hfind]
            exact if_pos hc
          exact (congrArg (List.cons _) h2).trans
            (List.filterMap_cons_some hf).symm
      · have hs' : addRoleStep allRoles existing acc rid = acc := by
          rw [addRoleStep, hfind]
          exact if_neg hc
        obtain ⟨Δ', h1, h2⟩ := ih (addRoleStep allRoles existing acc rid)
        rw [hs'] at h1
        simp only [List.foldl_cons, hs']
        refine ⟨Δ', h1, ?_⟩
        have hf : addRoleProj allRoles existing rid = none := by
          rw [addRoleProj, hfind]
          exact if_neg hc
        exact h2.trans (List.filterMap_cons_none hf).symm

/-- Decomposition of the add-rule users fold. -/
lemma addUserFold_spec (allUsers : List DirUser) :
    ∀ (sel : List Nat) (acc : List AccessRule × Nat), ∃ Δ : List AccessRule,
      (sel.foldl (addUserStep allUsers) acc).1 = acc.1 ++ Δ ∧
      Δ.map (fun r => (r.ruleType, r.condition, r.userIds)) =
        sel.filterMap (addUserProj allUsers) := by
  intro sel
  induction sel with
  | nil => intro acc; exact ⟨[], by simp, by simp⟩
  | cons uid ps ih =>
    intro acc
    rcases hfind : allUsers.find? (fun u => u.id == uid) with _ | u
    · have hs' : addUserStep allUsers acc uid = acc := by
        rw [addUserStep, hfind]
      obtain ⟨Δ', h1, h2⟩ := ih (addUserStep allUsers acc uid)
      rw [hs'] at h1
      simp only [List.foldl_cons, hs']
      refine ⟨Δ', h1, ?_⟩
      have hf : addUserProj allUsers uid = none := by
        rw [addUserProj, hfind]
      exact h2.trans (List.filterMap_cons_none hf).symm
    · have hs' : addUserStep allUsers acc uid =
        (acc.1 ++ [addUserRule u uid acc.2], acc.2 + 1) := by
        rw [addUserStep, hfind]
      obtain ⟨Δ', h1, h2⟩ := ih (addUserStep allUsers acc uid)
      rw [hs'] at h1
      simp only [List.foldl_cons, hs']
      simp only at h1
      refine ⟨addUserRule u uid acc.2 :: Δ', ?_, ?_⟩
      · rw [h1]; simp [List.append_assoc]
      · have hf : addUserProj allUsers uid =
          some ("User", u.userName, [uid]) := by
          rw [addUserProj, hfind]
        exact (congrArg (List.cons _) h2).trans
          (List.filterMap_cons_some hf).symm

/-- A rule set that already covers user 5. -/
def c5rules : List AccessRule := [⟨"r1", "User", "x", "y", [5]⟩]

/-- A directory in which user 5 exists. -/
def c5allUsers : List DirUser := [⟨5, "Eve", "Ops"⟩]

/-- Counterexample to C5 as stated: selecting the already covered
individual user 5 in the users tab emits a new rule whose `userIds`
overlap the existing rules (the users tab never consults
`existingUserIds`). -/
theorem c5_counterexample :
    (5 ∈ getExistingUserIds c5rules) ∧
    (∃ r ∈ handleAddRulesNew "users" [5] [] [] c5rules c5allUsers [] 0,
      r.userIds = [5]) := by decide

/-- C5 (amended).  The add-rule dedup holds for group selections: each new
Profile rule covers exactly the selected profile's members not already
covered by `existingUserIds`, each new Role rule covers exactly the
resolved role's uncovered members, and a fully covered group yields no
rule; such new rules never overlap the existing rules.  For the users tab
the rule is emitted without a coverage check, so it avoids overlap only
when the selected ids are not already covered (which the UI guarantees by
offering only `availableUsers`). -/
theorem c5_amended (selUsers : List Nat) (selProfiles : List String)
    (selRoles : List Nat) (rules : List AccessRule) (allUsers : List DirUser)
    (allRoles : List Role) (c0 : Nat) :
    ((handleAddRulesNew "profiles" selUsers selProfiles selRoles rules allUsers
        allRoles c0).map (fun r => (r.ruleType, r.condition, r.userIds)) =
      (selProfiles.filter (fun p =>
        0 < (uncoveredProfileUsers allUsers (getExistingUserIds rules) p).length)).map
        (fun p => ("Profile", p,
          (uncoveredProfileUsers allUsers (getExistingUserIds rules) p).map (·.id)))) ∧
    ((handleAddRulesNew "roles" selUsers selProfiles selRoles rules allUsers
        allRoles c0).map (fun r => (r.ruleType, r.condition, r.userIds)) =
      selRoles.filterMap (addRoleProj allRoles (getExistingUserIds rules))) ∧
    (∀ r ∈ handleAddRulesNew "profiles" selUsers selProfiles selRoles rules
        allUsers allRoles c0 ++
        handleAddRulesNew "roles" selUsers selProfiles selRoles rules allUsers
          allRoles c0,
      ∀ x ∈ r.userIds, x ∉ getExistingUserIds rules) ∧
    ((∀ uid ∈ selUsers, uid ∉ getExistingUserIds rules) →
      ∀ r ∈ handleAddRulesNew "users" selUsers selProfiles selRoles rules
        allUsers allRoles c0,
        ∀ x ∈ r.userIds, x ∉ getExistingUserIds rules) := by
  obtain ⟨Δ1, hP1, hP2⟩ :=
    addProfileFold_spec allUsers (getExistingUserIds rules) selProfiles ([], c0)
  obtain ⟨Δ2, hR1, hR2⟩ :=
    addRoleFold_spec allRoles (getExistingUserIds rules) selRoles ([], c0)
  obtain ⟨Δ3, hU1, hU2⟩ := addUserFold_spec allUsers selUsers ([], c0)
  have hprofΔ : handleAddRulesNew "profiles" selUsers selProfiles selRoles rules
      allUsers allRoles c0 = Δ1 := by
    show (selProfiles.foldl
      (addProfileStep allUsers (getExistingUserIds rules)) ([], c0)).1 = Δ1
    rw [hP1]
    simp
  have hrolesΔ : handleAddRulesNew "roles" selUsers selProfiles selRoles rules
      allUsers allRoles c0 = Δ2 := by
    show (selRoles.foldl
      (addRoleStep allRoles (getExistingUserIds rules)) ([], c0)).1 = Δ2
    rw [hR1]
    simp
  have husersΔ : handleAddRulesNew "users" selUsers selProfiles selRoles rules
      allUsers allRoles c0 = Δ3 := by
    show (selUsers.foldl (addUserStep allUsers) ([], c0)).1 = Δ3
    rw [hU1]
    simp
  refine ⟨?_, ?_, ?_, ?_⟩
  · rw [hprofΔ]; exact hP2
  · rw [hrolesΔ]; exact hR2
  · intro r hr x hx hxe
    rw [hprofΔ, hrolesΔ] at hr
    rcases List.mem_append.mp hr with hr | hr
    · have hmem : (r.ruleType, r.condition, r.userIds) ∈
          Δ1.map (fun r => (r.ruleType, r.condition, r.userIds)) :=
        List.mem_map_of_mem _ hr
      rw [hP2] at hmem
      obtain ⟨p, _, heq⟩ := List.mem_map.mp hmem
      have h3 : (uncoveredProfileUsers allUsers (getExistingUserIds rules) p).map
          (·.id) = r.userIds := congrArg (fun t => t.2.2) heq
      rw [← h3] at hx
      obtain ⟨u, hu, hux⟩ := List.mem_map.mp hx
      have hpred := List.of_mem_filter hu
      simp only [Bool.and_eq_true, Bool.not_eq_true'] at hpred
      have hcontains : (getExistingUserIds rules).contains u.id = true := by
        rw [hux]
        simpa using hxe
      rw [hpred.2] at hcontains
      exact Bool.false_ne_true hcontains
    · have hmem : (r.ruleType, r.condition, r.userIds) ∈
          Δ2.map (fun r => (r.ruleType, r.condition, r.userIds)) :=
        List.mem_map_of_mem _ hr
      rw [hR2] at hmem
      obtain ⟨rid, _, heq⟩ := List.mem_filterMap.mp hmem
      rw [addRoleProj] at heq
      rcases hfind : allRoles.find? (fun rr => rr.id == rid) with _ | role
      · rw [hfind] at heq
        exact absurd heq (by simp)
      · rw [hfind] at heq
        by_cases hc : 0 < (uncoveredRoleMembers (getExistingUserIds rules)
            role).length
        · have heq' : some (("Role" : String), role.roleName,
              (uncoveredRoleMembers (getExistingUserIds rules) role).map
                (·.userId)) =
              some (r.ruleType, r.condition, r.userIds) := by
            rw [← heq]
            exact (if_pos hc).symm
          injection heq' with heq''
          have h3 : (uncoveredRoleMembers (getExistingUserIds rules) role).map
              (·.userId) = r.userIds := congrArg (fun t => t.2.2) heq''
          rw [← h3] at hx
          obtain ⟨m, hm, hmx⟩ := List.mem_map.mp hx
          have hpred := List.of_mem_filter hm
          simp only [Bool.not_eq_true'] at hpred
          have hcontains : (getExistingUserIds rules).contains m.userId = true := by
            rw [hmx]
            simpa using hxe
          rw [hpred] at hcontains
          exact Bool.false_ne_true hcontains
        · have heq' : (none : Option (String × String × List Nat)) =
              some (r.ruleType, r.condition, r.userIds) := by
            rw [← heq]
            exact (if_neg hc).symm
          exact absurd heq' (by simp)
  · intro hyp r hr x hx hxe
    rw [husersΔ] at hr
    have hmem : (r.ruleType, r.condition, r.userIds) ∈
        Δ3.map (fun r => (r.ruleType, r.condition, r.userIds)) :=
      List.mem_map_of_mem _ hr
    rw [hU2] at hmem
    obtain ⟨uid, huid, heq⟩ := List.mem_filterMap.mp hmem
    rw [addUserProj] at heq
    rcases hfind : allUsers.find? (fun u => u.id == uid) with _ | u
    · rw [hfind] at heq
      exact absurd heq (by simp)
    · rw [hfind] at heq
      have heq' : some (("User" : String), u.userName, [uid]) =
          some (r.ruleType, r.condition, r.userIds) := heq
      injection heq' with heq''
      have h3 : [uid] = r.userIds := congrArg (fun t => t.2.2) heq''
      rw [← h3] at hx
      have hxid : x = uid := by simpa using hx
      exact hyp uid huid (hxid ▸ hxe)

/-- Witness for the amended C5: applying the users-tab conjunct at a
selection of an uncovered user. -/
theorem c5_amended_witness :
    ∀ r ∈ handleAddRulesNew "users" [7] [] [] c5rules c5allUsers [] 0,
      ∀ x ∈ r.userIds, x ∉ getExistingUserIds c5rules :=
  (c5_amended [7] [] [] c5rules c5allUsers [] 0).2.2.2 (by decide)

/-! ## C8: search -/

/-- The member-name branch of the search, as the code's `find?`-based
test, coincides under distinct directory ids with the existential "some
covered user's display name contains the term". -/
lemma find?_name_iff (allUsers : List DirUser)
    (hN : (allUsers.map (·.id)).Nodup) (uid : Nat) (sl : String) :
    ((match allUsers.find? (fun u => u.id == uid) with
      | some u => strContains (strLower u.userName) sl
      | none => false) = true) ↔
    ∃ u ∈ allUsers, u.id = uid ∧ strContains (strLower u.userName) sl = true := by
  rcases hfind : allUsers.find? (fun u => u.id == uid) with _ | u
  · simp only [hfind]
    constructor
    · intro h
      exact absurd h (by simp)
    · rintro ⟨u, hu, hid, _⟩
      have := List.find?_eq_none.mp hfind u hu
      simp [hid] at this
  · simp only [hfind]
    constructor
    · intro h
      exact ⟨u, List.mem_of_find?_eq_some hfind,
        by simpa using List.find?_some hfind, h⟩
    · rintro ⟨v, hv, hid, hc⟩
      have huid : u.id = uid := by simpa using List.find?_some hfind
      have humem : u ∈ allUsers := List.mem_of_find?_eq_some hfind
      have hvu : v = u := List.inj_on_of_nodup_map hN hv humem (by rw [hid, huid])
      rw [← hvu]
      exact hc

/-- C8.  Search: for any rule list and non-blank term (with distinct
directory ids), the search keeps exactly the rules whose condition,
rule-type name or details contain the lowercased term, plus — for Profile
and Role rules only — rules where some covered user's display name
contains the term; a User rule never matches through member names. -/
theorem c8_search (rules : List AccessRule) (allUsers : List DirUser)
    (term : String) (hterm : strTrim term ≠ "")
    (hN : (allUsers.map (·.id)).Nodup) (r : AccessRule) :
    r ∈ getFilteredRules ["all"] term rules allUsers ↔
      r ∈ rules ∧
        (strContains (strLower r.condition) (strLower term) = true ∨
         strContains (strLower r.ruleType) (strLower term) = true ∨
         strContains (strLower r.details) (strLower term) = true ∨
         ((r.ruleType = "Profile" ∨ r.ruleType = "Role") ∧
           ∃ uid ∈ r.userIds, ∃ u ∈ allUsers, u.id = uid ∧
             strContains (strLower u.userName) (strLower term) = true)) := by
  have hred : getFilteredRules ["all"] term rules allUsers =
      rules.filter (searchMatch allUsers (strLower term)) := by
    show (if strTrim term == "" then rules
      else rules.filter (searchMatch allUsers (strLower term))) =
      rules.filter (searchMatch allUsers (strLower term))
    rw [if_neg (by simp only [beq_iff_eq]; exact hterm)]
  have hsm : searchMatch allUsers (strLower term) r = true ↔
      (strContains (strLower r.condition) (strLower term) = true ∨
       strContains (strLower r.ruleType) (strLower term) = true ∨
       strContains (strLower r.details) (strLower term) = true ∨
       ((r.ruleType = "Profile" ∨ r.ruleType = "Role") ∧
         ∃ uid ∈ r.userIds, ∃ u ∈ allUsers, u.id = uid ∧
           strContains (strLower u.userName) (strLower term) = true)) := by
    rw [searchMatch]
    simp only [Bool.or_eq_true, Bool.and_eq_true, beq_iff_eq, List.any_eq_true]
    rw [or_assoc, or_assoc]
    apply or_congr Iff.rfl
    apply or_congr Iff.rfl
    apply or_congr Iff.rfl
    apply and_congr Iff.rfl
    exact exists_congr (fun uid =>
      and_congr Iff.rfl (find?_name_iff allUsers hN uid (strLower term)))
  rw [hred, List.mem_filter]
  exact and_congr Iff.rfl hsm

/-- The Role rule of the search-by-member scenario. -/
def c8rule : AccessRule := ⟨"id1", "Role", "Engineers", "2 user(s) - T", [7]⟩

/-- The directory with the covered user named Dana. -/
def c8allUsers : List DirUser := [⟨7, "Dana", "Eng"⟩]

/-- Witness for C8: a Role rule covering a user named Dana is returned by
a search for "Dana" although that name is in neither its condition nor its
details. -/
theorem c8_search_witness :
    c8rule ∈ getFilteredRules ["all"] "Dana" [c8rule] c8allUsers :=
  (c8_search [c8rule] c8allUsers "Dana" (by decide) (by decide) c8rule).mpr
    (by decide)

/-! ## C10: the filter set is never empty -/

/-- One filter toggle never produces an empty filter list. -/
lemma handleFilterChange_ne_nil (f : String) (s : List String) :
    handleFilterChange f s ≠ [] := by
  rw [handleFilterChange]
  by_cases hf : (f == "all") = true
  · rw [if_pos hf]; simp
  · rw [if_neg hf]
    dsimp only
    by_cases hc : (s.filter (fun g => !(g == "all"))).contains f = true
    · rw [if_pos hc]
      by_cases he : ((s.filter (fun g => !(g == "all"))).filter
          (fun g => !(g == f))).isEmpty = true
      · rw [if_pos he]; simp
      · rw [if_neg he]
        intro hnil
        exact he (by rw [hnil]; rfl)
    · rw [if_neg hc]
      by_cases he : ((s.filter (fun g => !(g == "all"))) ++ [f]).isEmpty = true
      · rw [if_pos he]; simp
      · rw [if_neg he]
        intro hnil
        exact he (by rw [hnil]; rfl)

/-- Any toggle sequence from the default keeps the filter list
non-empty. -/
lemma foldl_filters_ne_nil :
    ∀ (fs : List String) (s : List String), s ≠ [] →
      fs.foldl (fun acc f => handleFilterChange f acc) s ≠ [] := by
  intro fs
  induction fs with
  | nil => intro s h; simpa using h
  | cons f fs ih =>
    intro s _
    simp only [List.foldl_cons]
    exact ih _ (handleFilterChange_ne_nil f s)

/-- C10.  Filter-set invariant: starting from the default `["all"]`, every
toggle sequence keeps the active filter set non-empty; toggling "all"
resets it to exactly `["all"]`; toggling a specific type on removes
"all"; and deselecting the last remaining specific type falls back to
`["all"]`. -/
theorem c10_filter_invariant :
    (∀ fs : List String,
      fs.foldl (fun acc f => handleFilterChange f acc) ["all"] ≠ []) ∧
    (∀ (f : String) (s : List String), handleFilterChange f s ≠ []) ∧
    (∀ s : List String, handleFilterChange "all" s = ["all"]) ∧
    (∀ (f : String) (s : List String), f ≠ "all" → f ∉ s →
      "all" ∉ handleFilterChange f s) ∧
    (∀ f : String, f ≠ "all" → handleFilterChange f [f] = ["all"]) := by
  refine ⟨?_, handleFilterChange_ne_nil, ?_, ?_, ?_⟩
  · intro fs
    exact foldl_filters_ne_nil fs ["all"] (by simp)
  · intro s
    rw [handleFilterChange, if_pos (by rfl)]
  · intro f s hf hfs
    rw [handleFilterChange, if_neg (by simpa using hf)]
    dsimp only
    have hnf : ¬ (s.filter (fun g => !(g == "all"))).contains f = true := by
      intro hc
      have h' : f ∈ s ∧ ¬ f = "all" := by simpa using hc
      exact hfs h'.1
    rw [if_neg hnf]
    have hne : ((s.filter (fun g => !(g == "all"))) ++ [f]).isEmpty ≠ true := by
      simp
    rw [if_neg hne]
    intro hmem
    simp only [List.mem_append, List.mem_singleton] at hmem
    rcases hmem with hmem | hmem
    · have := List.of_mem_filter hmem
      simp at this
    · exact hf hmem.symm
  · intro f hf
    rw [handleFilterChange, if_neg (by simpa using hf)]
    dsimp only
    have h1 : [f].filter (fun g => !(g == "all")) = [f] := by
      simp [hf]
    rw [h1]
    have h2 : [f].contains f = true := by simp
    rw [if_pos h2]
    have h3 : [f].filter (fun g => !(g == f)) = [] := by simp
    rw [h3]
    rfl

/-- Witness for C10: toggling "user" on from the default removes "all";
deselecting it again falls back to `["all"]`. -/
theorem c10_filter_invariant_witness :
    "all" ∉ handleFilterChange "user" ["all"] ∧
    handleFilterChange "user" ["user"] = ["all"] :=
  ⟨c10_filter_invariant.2.2.2.1 "user" ["all"] (by decide) (by decide),
   c10_filter_invariant.2.2.2.2 "user" (by decide)⟩

/-- Witness for C2 at a concrete snapshot with a Profile group, a Role
rule and an individual User rule. -/
theorem c2_disjointness_witness :
    List.Pairwise (fun r r' => ∀ x ∈ r.userIds, x ∉ r'.userIds)
      (reconstruct
        [⟨1, "Alice", "Admin"⟩, ⟨2, "Bob", "Ops"⟩, ⟨4, "Dave", "Mgr"⟩]
        [⟨1, "Alice", "Admin"⟩, ⟨2, "Bob", "Ops"⟩, ⟨3, "Carol", "Ops"⟩,
         ⟨4, "Dave", "Mgr"⟩, ⟨5, "Erin", "Mgr"⟩]
        [⟨9, "Engineers", "T", [⟨2⟩, ⟨3⟩]⟩] 11) :=
  c2_disjointness
    [⟨1, "Alice", "Admin"⟩, ⟨2, "Bob", "Ops"⟩, ⟨4, "Dave", "Mgr"⟩]
    [⟨1, "Alice", "Admin"⟩, ⟨2, "Bob", "Ops"⟩, ⟨3, "Carol", "Ops"⟩,
     ⟨4, "Dave", "Mgr"⟩, ⟨5, "Erin", "Mgr"⟩]
    [⟨9, "Engineers", "T", [⟨2⟩, ⟨3⟩]⟩] 11 (by decide) (by decide)
